import Mathlib

set_option autoImplicit false

namespace DeadDropBackend

/-!
Verification development for the unr-deaddrop backend: the schema
preprocessor (backend/preprocessor.py), the command validation and error
reporting of start_command (backend/views.py), and the asynchronous
dispatch/receive tasks (backend/tasks.py).

Documents are JSON-parsed trees, so no two reachable nodes alias each
other; Python in-place mutation of a nested dict during recursion is
modeled by writing the recursively processed value back to its key when
the binding is unchanged.  Python dicts are modeled as insertion-ordered
association lists with unique keys.
-/

/-- JSON-like values as found in the schema documents handled by the
preprocessor.  A Python dict is an insertion-ordered mapping; it is modeled
as a list of bindings in insertion order. -/
inductive Val where
  | vStr (s : String)
  | vInt (n : Int)
  | vBool (b : Bool)
  | vNull
  | vList (elems : List Val)
  | vDict (entries : List (String × Val))
deriving Repr

/-- A Python dict of string keys: the entry list of a Val.vDict. -/
abbrev Dict := List (String × Val)

mutual

/-- Structural equality of values (Python == on JSON-like data). -/
def beqVal : Val → Val → Bool
  | .vStr a, .vStr b => a == b
  | .vInt a, .vInt b => a == b
  | .vBool a, .vBool b => a == b
  | .vNull, .vNull => true
  | .vList xs, .vList ys => beqValList xs ys
  | .vDict xs, .vDict ys => beqValEntries xs ys
  | _, _ => false

/-- Structural equality of value lists. -/
def beqValList : List Val → List Val → Bool
  | [], [] => true
  | x :: xs, y :: ys => beqVal x y && beqValList xs ys
  | _, _ => false

/-- Structural equality of entry lists. -/
def beqValEntries : List (String × Val) → List (String × Val) → Bool
  | [], [] => true
  | (k1, v1) :: xs, (k2, v2) :: ys => k1 == k2 && beqVal v1 v2 && beqValEntries xs ys
  | _, _ => false

end

theorem beq_iff_eq_all (N : Nat) :
    (∀ a b : Val, sizeOf a ≤ N → (beqVal a b = true ↔ a = b)) ∧
    (∀ xs ys : List Val, sizeOf xs ≤ N → (beqValList xs ys = true ↔ xs = ys)) ∧
    (∀ xs ys : List (String × Val), sizeOf xs ≤ N → (beqValEntries xs ys = true ↔ xs = ys)) := by
  induction N using Nat.strong_induction_on with
  | _ N IH =>
    refine ⟨fun a b ha => ?_, fun xs ys hxs => ?_, fun xs ys hxs => ?_⟩
    · cases a <;> cases b <;>
        simp only [beqVal, beq_iff_eq, Val.vStr.injEq, Val.vInt.injEq, Val.vBool.injEq,
          Val.vList.injEq, Val.vDict.injEq, reduceCtorEq, iff_true, iff_false] <;>
        try simp
      case vList.vList xs ys =>
        have hs : sizeOf xs < N := by
          simp at ha; omega
        exact (IH (sizeOf xs) hs).2.1 xs ys (Nat.le_refl _)
      case vDict.vDict xs ys =>
        have hs : sizeOf xs < N := by
          simp at ha; omega
        exact (IH (sizeOf xs) hs).2.2 xs ys (Nat.le_refl _)
    · match xs, ys with
      | [], [] => simp [beqValList]
      | [], _ :: _ => simp [beqValList]
      | _ :: _, [] => simp [beqValList]
      | x :: xs, y :: ys =>
        have h1 : sizeOf x < N := by simp at hxs; omega
        have h2 : sizeOf xs < N := by simp at hxs; omega
        have e1 := (IH (sizeOf x) h1).1 x y (Nat.le_refl _)
        have e2 := (IH (sizeOf xs) h2).2.1 xs ys (Nat.le_refl _)
        simp [beqValList, e1, e2]
    · match xs, ys with
      | [], [] => simp [beqValEntries]
      | [], _ :: _ => simp [beqValEntries]
      | _ :: _, [] => simp [beqValEntries]
      | (k1, v1) :: xs, (k2, v2) :: ys =>
        have h1 : sizeOf v1 < N := by simp at hxs; omega
        have h2 : sizeOf xs < N := by simp at hxs; omega
        have e1 := (IH (sizeOf v1) h1).1 v1 v2 (Nat.le_refl _)
        have e2 := (IH (sizeOf xs) h2).2.2 xs ys (Nat.le_refl _)
        simp [beqValEntries, e1, e2, and_assoc]

instance : DecidableEq Val := fun a b =>
  decidable_of_iff (beqVal a b = true) ((beq_iff_eq_all (sizeOf a)).1 a b (Nat.le_refl _))

/-- The keys of a dict, in insertion order. -/
def keysD (d : Dict) : List String := d.map Prod.fst

/-- Python d[k] as an Option: the value of the binding of k (under key
uniqueness the first match is the only one). -/
def lookupD : Dict → String → Option Val
  | [], _ => none
  | p :: rest, k => if p.1 = k then some p.2 else lookupD rest k

/-- Python d[k] = v: replace the value of the binding of k in place, keeping
its position, or append a new binding at the end if the key is absent. -/
def insertD : Dict → String → Val → Dict
  | [], k, v => [(k, v)]
  | p :: rest, k, v => if p.1 = k then (k, v) :: rest else p :: insertD rest k v

/-- Python d.pop(k): the dict without the binding of k. -/
def popD : Dict → String → Dict
  | [], _ => []
  | p :: rest, k => if p.1 = k then rest else p :: popD rest k

/-- Python d.update(other): insert every binding of other, in order.  Existing
keys keep their position and get the new value; new keys are appended. -/
def updateD (d other : Dict) : Dict := other.foldl (fun acc p => insertD acc p.1 p.2) d

/-- Key-uniqueness check; Python dicts always satisfy it. -/
def nodupB : List String → Bool
  | [] => true
  | k :: r => decide (k ∉ r) && nodupB r

/-- Exceptions that can escape the embedded code.  Python exception classes are
collapsed to the distinctions the code observes: preprocessor failures
(assertions, unknown directive actions, missing settings attributes), and the
lookup failures of the task layer. -/
inductive Err where
  | assertionError
  | keyError (k : String)
  | typeError
  | unknownDirective (action : String)
  | unknownConfigKey (attr : String)
  | attributeError (s : String)
  | doesNotExist (what : String)
  | transportError (s : String)
deriving DecidableEq, Repr

deriving instance DecidableEq for Except

/-- External inputs of the preprocessor: the stream of fresh UUID strings
(uuid.uuid4 draws one per call, counted by a Nat) and the Django settings
object read by getattr. -/
structure Env where
  uuid : Nat → String
  settings : String → Option Val

/-- backend/preprocessor.py preprocess_create_id: insert a random UUIDv4 as the
default for the field and make it read-only; the directive value is ignored. -/
def preprocess_create_id (env : Env) (input : Dict) (n : Nat) : Dict × Nat :=
  (insertD (insertD input "default" (.vStr (env.uuid n))) "readOnly" (.vBool true), n + 1)

/-- backend/preprocessor.py preprocess_settings_val: substitute a value defined
in Django settings, set as default, and make read-only.  getattr on a missing
attribute raises AttributeError (modeled as unknownConfigKey); getattr with a
non-string name raises TypeError. -/
def preprocess_settings_val (env : Env) (input : Dict) (value : Val) : Except Err Dict :=
  match value with
  | .vStr s =>
    match env.settings s with
    | some v => .ok (insertD (insertD input "default" v) "readOnly" (.vBool true))
    | none => .error (.unknownConfigKey s)
  | _ => .error .typeError

/-- backend/preprocessor.py preprocess_router: apply the specified preprocessor
action; an action outside the fixed ACTIONS registry raises RuntimeError
(modeled as unknownDirective). -/
def preprocess_router (env : Env) (input : Dict) (action : String) (value : Val) (n : Nat) :
    Except Err (Dict × Nat) :=
  if action = "create_id" then .ok (preprocess_create_id env input n)
  else if action = "settings_val" then (preprocess_settings_val env input value).map (fun d => (d, n))
  else .error (.unknownDirective action)

/-- The null alternative marker of an anyOf produced by optional typing. -/
def nullMarker : Val := .vDict [("type", .vStr "null")]

/-- The loop of preprocess_anyof: for every alternative that is not the null
marker, merge its keys into the current node (input.update(d)).  A non-dict
alternative is never equal to the marker and makes dict.update raise (modeled
as typeError). -/
def anyofMerge (cur : Dict) : List Val → Except Err Dict
  | [] => .ok cur
  | x :: rest =>
    if x = nullMarker then anyofMerge cur rest
    else
      match x with
      | .vDict a => anyofMerge (updateD cur a) rest
      | _ => .error .typeError

/-- backend/preprocessor.py preprocess_anyof: assert the anyOf key exists, pop
it, and merge every non-null alternative into the node, alternative keys
winning on conflict.  A non-list anyOf value makes the iteration or the update
raise (modeled as typeError). -/
def preprocess_anyof (input : Dict) : Except Err Dict :=
  match lookupD input "anyOf" with
  | none => .error .assertionError
  | some v =>
    match v with
    | .vList alts => anyofMerge (popD input "anyOf") alts
    | _ => .error .typeError

/-- backend/preprocessor.py preprocess_array: assert the type is the array
marker and an items key exists, pop items, and rewrite the type to string.
Reading a missing type key raises KeyError; a failed assert raises
AssertionError. -/
def preprocess_array (input : Dict) : Except Err Dict :=
  match lookupD input "type" with
  | none => .error (.keyError "type")
  | some t =>
    if t ≠ .vStr "array" then .error .assertionError
    else if "items" ∈ keysD input then
      .ok (insertD (popD input "items") "type" (.vStr "string"))
    else .error .assertionError

/-- Matching the key against the regex pattern of the directive keys: the match
succeeds iff the key starts with the literal directive marker, and the captured
action is the remainder of the key up to the first newline (a regex dot does
not match newlines). -/
def directiveAction (k : String) : Option String :=
  if "_preprocess_".data.isPrefixOf k.data then
    some (String.mk ((k.data.drop 12).takeWhile (fun c => c ≠ '\n')))
  else none

/-- Steps 2 to 4 of one iteration of the loop body of preprocess_dict, for the
snapshot entry (k, v) against the current dict: the anyOf collapse when the key
is the anyOf discriminator, the array collapse when the key is type and the
snapshot value is the array marker, and the directive step, which pops the key
(KeyError if it is gone) and routes the action with the snapshot value. -/
def stepEntryRest (env : Env) (k : String) (v : Val) (cur : Dict) (n : Nat) :
    Except Err (Dict × Nat) :=
  match (if k = "anyOf" then preprocess_anyof cur else Except.ok cur) with
  | .error e => .error e
  | .ok cur2 =>
    match (if k = "type" ∧ v = .vStr "array" then preprocess_array cur2 else Except.ok cur2) with
    | .error e => .error e
    | .ok cur3 =>
      match directiveAction k with
      | none => .ok (cur3, n)
      | some action =>
        if k ∈ keysD cur3 then preprocess_router env (popD cur3 k) action v n
        else .error (.keyError k)

mutual

/-- The loop of preprocess_dict: iterate over the remaining snapshot entries
against the current state of the dict, threading the UUID counter. -/
def processSnap (env : Env) : List (String × Val) → Dict → Nat → Except Err (Dict × Nat)
  | [], cur, n => .ok (cur, n)
  | (k, v) :: rest, cur, n =>
    match stepEntry env k v cur n with
    | .error e => .error e
    | .ok (cur1, n1) => processSnap env rest cur1 n1

/-- One full iteration of the loop body of preprocess_dict for the snapshot
entry (k, v): if the snapshot value is a dict, recursively process it first
(the recursive call of preprocess_dict is inlined as processSnap on the nested
entries; the in-place mutation is modeled by writing the result back when the
binding is unchanged), then the remaining steps. -/
def stepEntry (env : Env) : String → Val → Dict → Nat → Except Err (Dict × Nat)
  | k, .vDict dd, cur, n =>
    (match processSnap env dd dd n with
     | .error e => .error e
     | .ok (dd2, n1) =>
       stepEntryRest env k (.vDict dd)
         (if lookupD cur k = some (Val.vDict dd) then insertD cur k (.vDict dd2) else cur) n1)
  | k, v, cur, n => stepEntryRest env k v cur n

end

/-- backend/preprocessor.py preprocess_dict: recursively process a dictionary.
The loop runs over a snapshot of the entries taken on entry
(tuple(input.items())) while the dict itself is mutated; this is modeled by
passing the snapshot and the current dict separately.  The Nat counts the
UUIDs drawn so far. -/
def preprocess_dict (env : Env) (d : Dict) (n : Nat) : Except Err (Dict × Nat) :=
  processSnap env d d n


/-! Basic facts about the dict operations. -/

theorem nodupB_cons_iff (k : String) (r : List String) :
    nodupB (k :: r) = true ↔ k ∉ r ∧ nodupB r = true := by
  simp [nodupB]

theorem lookupD_insertD_self (d : Dict) (k : String) (v : Val) :
    lookupD (insertD d k v) k = some v := by
  induction d with
  | nil => simp [insertD, lookupD]
  | cons p rest ih =>
    by_cases hp : p.1 = k
    · simp [insertD, hp, lookupD]
    · simp [insertD, hp, lookupD, ih]

theorem lookupD_insertD_ne (d : Dict) (k a : String) (v : Val) (h : a ≠ k) :
    lookupD (insertD d k v) a = lookupD d a := by
  have hka : (k = a) = False := eq_false (fun hh => h hh.symm)
  induction d with
  | nil => simp [insertD, lookupD, hka]
  | cons p rest ih =>
    by_cases hp : p.1 = k
    · simp [insertD, hp, lookupD, hka]
    · simp [insertD, hp, lookupD, ih]

theorem mem_keysD_insertD (d : Dict) (k a : String) (v : Val) :
    a ∈ keysD (insertD d k v) ↔ a ∈ keysD d ∨ a = k := by
  induction d with
  | nil => simp [insertD, keysD]
  | cons p rest ih =>
    by_cases hp : p.1 = k
    · simp only [insertD, if_pos hp, keysD, List.map_cons, List.mem_cons]
      rw [hp]
      tauto
    · simp only [insertD, if_neg hp, keysD, List.map_cons, List.mem_cons]
      have ih2 := ih
      simp only [keysD] at ih2
      rw [ih2]
      tauto

theorem lookupD_popD_ne (d : Dict) (k a : String) (h : a ≠ k) :
    lookupD (popD d k) a = lookupD d a := by
  induction d with
  | nil => simp [popD]
  | cons p rest ih =>
    by_cases hp : p.1 = k
    · have hpa : (p.1 = a) = False := eq_false (fun hh => h (hh.symm.trans hp))
      have hka : (k = a) = False := eq_false (fun hh => h hh.symm)
      simp [popD, hp, lookupD, hpa, hka]
    · simp [popD, hp, lookupD, ih]

theorem mem_keysD_popD (d : Dict) (k a : String) :
    a ∈ keysD (popD d k) → a ∈ keysD d := by
  induction d with
  | nil => simp [popD]
  | cons p rest ih =>
    by_cases hp : p.1 = k
    · simp only [popD, if_pos hp, keysD, List.map_cons, List.mem_cons]
      exact fun h => Or.inr h
    · simp only [popD, if_neg hp, keysD, List.map_cons, List.mem_cons]
      rintro (h | h)
      · exact Or.inl h
      · exact Or.inr (ih h)

theorem mem_keysD_popD_ne (d : Dict) (k a : String) (h : a ≠ k) :
    a ∈ keysD (popD d k) ↔ a ∈ keysD d := by
  induction d with
  | nil => simp [popD]
  | cons p rest ih =>
    by_cases hp : p.1 = k
    · subst hp
      simp only [popD, if_pos rfl, keysD, List.map_cons, List.mem_cons]
      constructor
      · exact fun hh => Or.inr hh
      · rintro (hh | hh)
        · exact absurd hh h
        · exact hh
    · simp only [popD, if_neg hp, keysD, List.map_cons, List.mem_cons]
      have ih2 := ih
      simp only [keysD] at ih2
      rw [ih2]

theorem not_mem_keysD_popD (d : Dict) (k : String) (hn : nodupB (keysD d) = true) :
    k ∉ keysD (popD d k) := by
  induction d with
  | nil => simp [popD, keysD]
  | cons p rest ih =>
    obtain ⟨h1, h2⟩ := (nodupB_cons_iff _ _).mp (by simpa [keysD] using hn)
    by_cases hp : p.1 = k
    · subst hp
      simp only [popD, if_pos rfl]
      simpa [keysD] using h1
    · simp only [popD, if_neg hp, keysD, List.map_cons, List.mem_cons]
      rintro (h | h)
      · exact hp h.symm
      · exact ih (by simpa [keysD] using h2) h

theorem lookupD_eq_none_iff (d : Dict) (a : String) :
    lookupD d a = none ↔ a ∉ keysD d := by
  induction d with
  | nil => simp [lookupD, keysD]
  | cons p rest ih =>
    by_cases hp : p.1 = a
    · simp [lookupD, hp, keysD]
    · have hap : (a = p.1) = False := eq_false (fun hh => hp hh.symm)
      simp [lookupD, hp, keysD, ih, hap]

theorem lookupD_isSome_of_mem (d : Dict) (a : String) (h : a ∈ keysD d) :
    ∃ v, lookupD d a = some v := by
  cases hl : lookupD d a with
  | none => exact absurd ((lookupD_eq_none_iff d a).mp hl) (not_not_intro h)
  | some v => exact ⟨v, rfl⟩

theorem mem_of_lookupD_eq_some (d : Dict) (a : String) (v : Val) (h : lookupD d a = some v) :
    a ∈ keysD d := by
  by_contra hmem
  rw [(lookupD_eq_none_iff d a).mpr hmem] at h
  exact Option.noConfusion h

theorem keysD_insertD_of_mem (d : Dict) (k : String) (v : Val) (h : k ∈ keysD d) :
    keysD (insertD d k v) = keysD d := by
  induction d with
  | nil => simp [keysD] at h
  | cons p rest ih =>
    by_cases hp : p.1 = k
    · simp [insertD, hp, keysD]
    · simp only [keysD, List.map_cons, List.mem_cons] at h
      rcases h with h | h
      · exact absurd h.symm hp
      · simp only [insertD, if_neg hp, keysD, List.map_cons]
        have ih2 := ih (by simpa [keysD] using h)
        simp only [keysD] at ih2
        rw [ih2]

theorem nodupB_keysD_insertD (d : Dict) (k : String) (v : Val)
    (hn : nodupB (keysD d) = true) : nodupB (keysD (insertD d k v)) = true := by
  induction d with
  | nil => simp [insertD, keysD, nodupB]
  | cons p rest ih =>
    obtain ⟨h1, h2⟩ := (nodupB_cons_iff _ _).mp (by simpa [keysD] using hn)
    by_cases hp : p.1 = k
    · subst hp
      simp only [insertD, if_pos rfl, keysD, List.map_cons]
      exact (nodupB_cons_iff _ _).mpr ⟨by simpa [keysD] using h1, by simpa [keysD] using h2⟩
    · simp only [insertD, if_neg hp, keysD, List.map_cons]
      refine (nodupB_cons_iff _ _).mpr ⟨?_, ?_⟩
      · intro hmem
        have := (mem_keysD_insertD rest k p.1 v).mp (by simpa [keysD] using hmem)
        rcases this with h | h
        · exact h1 (by simpa [keysD] using h)
        · exact hp h
      · exact by simpa [keysD] using ih (by simpa [keysD] using h2)

theorem nodupB_keysD_popD (d : Dict) (k : String) (hn : nodupB (keysD d) = true) :
    nodupB (keysD (popD d k)) = true := by
  induction d with
  | nil => simp [popD, keysD, nodupB]
  | cons p rest ih =>
    obtain ⟨h1, h2⟩ := (nodupB_cons_iff _ _).mp (by simpa [keysD] using hn)
    by_cases hp : p.1 = k
    · subst hp
      simpa [popD, keysD] using h2
    · simp only [popD, if_neg hp, keysD, List.map_cons]
      refine (nodupB_cons_iff _ _).mpr ⟨?_, ?_⟩
      · intro hmem
        exact h1 (by simpa [keysD] using mem_keysD_popD rest k p.1 (by simpa [keysD] using hmem))
      · exact by simpa [keysD] using ih (by simpa [keysD] using h2)

theorem insertD_eq_self_of_lookupD (d : Dict) (k : String) (v : Val)
    (h : lookupD d k = some v) : insertD d k v = d := by
  induction d with
  | nil => simp [lookupD] at h
  | cons p rest ih =>
    obtain ⟨p1, p2⟩ := p
    by_cases hp : p1 = k
    · have h2 : p2 = v := by simpa [lookupD, hp] using h
      subst h2
      subst hp
      simp [insertD]
    · have h2 : lookupD rest k = some v := by simpa [lookupD, hp] using h
      simp [insertD, hp, ih h2]

/-! Facts about updateD (Python dict.update). -/

theorem updateD_nil (d : Dict) : updateD d [] = d := rfl

theorem updateD_cons (d : Dict) (p : String × Val) (rest : Dict) :
    updateD d (p :: rest) = updateD (insertD d p.1 p.2) rest := rfl

theorem mem_keysD_updateD (o d : Dict) (a : String) :
    a ∈ keysD (updateD d o) ↔ a ∈ keysD d ∨ a ∈ keysD o := by
  induction o generalizing d with
  | nil => simp [updateD_nil, keysD]
  | cons p rest ih =>
    rw [updateD_cons, ih, mem_keysD_insertD]
    simp only [keysD, List.map_cons, List.mem_cons]
    tauto

theorem lookupD_updateD_of_not_mem (o d : Dict) (a : String) (h : a ∉ keysD o) :
    lookupD (updateD d o) a = lookupD d a := by
  induction o generalizing d with
  | nil => simp [updateD_nil]
  | cons p rest ih =>
    simp only [keysD, List.map_cons, List.mem_cons] at h
    push_neg at h
    rw [updateD_cons, ih _ (by simpa [keysD] using h.2), lookupD_insertD_ne _ _ _ _ h.1]

theorem lookupD_updateD_of_lookup (o : Dict) (a : String) (v : Val) :
    ∀ d : Dict, nodupB (keysD o) = true → lookupD o a = some v →
      lookupD (updateD d o) a = some v := by
  induction o with
  | nil => intro d hn h; simp [lookupD] at h
  | cons p rest ih =>
    intro d hn h
    obtain ⟨h1, h2⟩ := (nodupB_cons_iff _ _).mp (by simpa [keysD] using hn)
    by_cases hp : p.1 = a
    · have hv : lookupD (p :: rest) a = some p.2 := by simp [lookupD, hp]
      rw [hv] at h
      rw [updateD_cons, lookupD_updateD_of_not_mem _ _ _ (fun hmem =>
        h1 (by simpa [keysD, hp] using hmem))]
      rw [← hp, lookupD_insertD_self]
      exact h
    · have hv : lookupD (p :: rest) a = lookupD rest a := by simp [lookupD, hp]
      rw [hv] at h
      rw [updateD_cons]
      exact ih _ (by simpa [keysD] using h2) h

theorem nodupB_keysD_updateD (o d : Dict) (hn : nodupB (keysD d) = true) :
    nodupB (keysD (updateD d o)) = true := by
  induction o generalizing d with
  | nil => simpa [updateD_nil]
  | cons p rest ih =>
    rw [updateD_cons]
    exact ih _ (nodupB_keysD_insertD _ _ _ hn)


/-! Equations and invariants of the preprocess_dict loop. -/

theorem processSnap_nil (env : Env) (cur : Dict) (n : Nat) :
    processSnap env [] cur n = .ok (cur, n) := rfl

theorem processSnap_cons_ok (env : Env) (k : String) (v : Val) (rest : List (String × Val))
    (cur c1 : Dict) (n n1 : Nat) (h : stepEntry env k v cur n = .ok (c1, n1)) :
    processSnap env ((k, v) :: rest) cur n = processSnap env rest c1 n1 := by
  simp [processSnap, h]

theorem processSnap_cons_err (env : Env) (k : String) (v : Val) (rest : List (String × Val))
    (cur : Dict) (n : Nat) (e : Err) (h : stepEntry env k v cur n = .error e) :
    processSnap env ((k, v) :: rest) cur n = .error e := by
  simp [processSnap, h]

theorem processSnap_append (env : Env) (s1 s2 : List (String × Val)) :
    ∀ (cur : Dict) (n : Nat),
      processSnap env (s1 ++ s2) cur n =
        match processSnap env s1 cur n with
        | .error e => .error e
        | .ok (c, m) => processSnap env s2 c m := by
  induction s1 with
  | nil => intro cur n; simp [processSnap_nil]
  | cons p rest ih =>
    intro cur n
    obtain ⟨k, v⟩ := p
    cases hs : stepEntry env k v cur n with
    | error e =>
      rw [List.cons_append, processSnap_cons_err env k v _ cur n e hs,
        processSnap_cons_err env k v _ cur n e hs]
    | ok r =>
      obtain ⟨c1, n1⟩ := r
      rw [List.cons_append, processSnap_cons_ok env k v _ cur c1 n n1 hs,
        processSnap_cons_ok env k v _ cur c1 n n1 hs, ih]

/-- Any property of the current dict preserved by every successful step of the
snapshot is preserved by the whole loop. -/
theorem processSnap_inv (env : Env) (P : Dict → Prop) (snap : List (String × Val)) :
    ∀ (cur : Dict) (n : Nat) (r : Dict × Nat),
      (∀ k v c m c2 m2, (k, v) ∈ snap → P c → stepEntry env k v c m = .ok (c2, m2) → P c2) →
      processSnap env snap cur n = .ok r → P cur → P r.1 := by
  induction snap with
  | nil =>
    intro cur n r _ h hP
    rw [processSnap_nil] at h
    cases h
    exact hP
  | cons p rest ih =>
    intro cur n r hstep h hP
    obtain ⟨k, v⟩ := p
    cases hs : stepEntry env k v cur n with
    | error e => rw [processSnap_cons_err env k v _ cur n e hs] at h; cases h
    | ok r1 =>
      obtain ⟨c1, n1⟩ := r1
      rw [processSnap_cons_ok env k v _ cur c1 n n1 hs] at h
      exact ih c1 n1 r (fun k2 v2 c m c2 m2 hmem => hstep k2 v2 c m c2 m2 (List.mem_cons_of_mem _ hmem))
        h (hstep k v cur n c1 n1 (List.mem_cons_self _ _) hP hs)

/-! Characterizations of a single loop step. -/

theorem stepEntryRest_benign (env : Env) (k : String) (v : Val) (cur : Dict) (n : Nat)
    (h1 : k ≠ "anyOf") (h2 : ¬(k = "type" ∧ v = .vStr "array"))
    (h3 : directiveAction k = none) :
    stepEntryRest env k v cur n = .ok (cur, n) := by
  simp [stepEntryRest, h1, h2, h3]

/-- A benign step (no anyOf key, no array type, no directive key) preserves the
key set, preserves every binding at other keys, and preserves key uniqueness;
at its own key it can only replace a dict value by the recursively processed
dict. -/
theorem stepEntry_benign (env : Env) (k : String) (v : Val) (cur cur2 : Dict) (n n2 : Nat)
    (h1 : k ≠ "anyOf") (h2 : ¬(k = "type" ∧ v = .vStr "array"))
    (h3 : directiveAction k = none)
    (h : stepEntry env k v cur n = .ok (cur2, n2)) :
    (∀ a, a ∈ keysD cur2 ↔ a ∈ keysD cur) ∧
    (∀ a, a ≠ k → lookupD cur2 a = lookupD cur a) ∧
    (nodupB (keysD cur) = true → nodupB (keysD cur2) = true) := by
  cases v with
  | vDict dd =>
    simp only [stepEntry] at h
    cases hp : processSnap env dd dd n with
    | error e => rw [hp] at h; cases h
    | ok r =>
      obtain ⟨dd2, n1⟩ := r
      rw [hp] at h
      simp only at h
      by_cases hl : lookupD cur k = some (Val.vDict dd)
      · rw [if_pos hl] at h
        rw [stepEntryRest_benign env k _ _ n1 h1 h2 h3] at h
        cases h
        have hk : k ∈ keysD cur := mem_of_lookupD_eq_some _ _ _ hl
        have hkeys := keysD_insertD_of_mem cur k (Val.vDict dd2) hk
        refine ⟨fun a => by rw [hkeys], fun a ha => lookupD_insertD_ne _ _ _ _ ha,
          fun hn => nodupB_keysD_insertD _ _ _ hn⟩
      · rw [if_neg hl] at h
        rw [stepEntryRest_benign env k _ _ n1 h1 h2 h3] at h
        cases h
        exact ⟨fun a => Iff.rfl, fun a _ => rfl, fun hn => hn⟩
  | vStr s =>
    simp only [stepEntry] at h
    rw [stepEntryRest_benign env k _ _ n h1 h2 h3] at h
    cases h
    exact ⟨fun a => Iff.rfl, fun a _ => rfl, fun hn => hn⟩
  | vInt i =>
    simp only [stepEntry] at h
    rw [stepEntryRest_benign env k _ _ n h1 (by simp) h3] at h
    cases h
    exact ⟨fun a => Iff.rfl, fun a _ => rfl, fun hn => hn⟩
  | vBool b =>
    simp only [stepEntry] at h
    rw [stepEntryRest_benign env k _ _ n h1 (by simp) h3] at h
    cases h
    exact ⟨fun a => Iff.rfl, fun a _ => rfl, fun hn => hn⟩
  | vNull =>
    simp only [stepEntry] at h
    rw [stepEntryRest_benign env k _ _ n h1 (by simp) h3] at h
    cases h
    exact ⟨fun a => Iff.rfl, fun a _ => rfl, fun hn => hn⟩
  | vList l =>
    simp only [stepEntry] at h
    rw [stepEntryRest_benign env k _ _ n h1 (by simp) h3] at h
    cases h
    exact ⟨fun a => Iff.rfl, fun a _ => rfl, fun hn => hn⟩


/-- A directive key never collides with the structural keys the loop treats
specially, nor with the keys written by the registered actions. -/
theorem directiveAction_ne (k act : String) (h : directiveAction k = some act) :
    k ≠ "anyOf" ∧ k ≠ "type" ∧ k ≠ "items" ∧ k ≠ "default" ∧ k ≠ "readOnly" := by
  refine ⟨fun he => ?_, fun he => ?_, fun he => ?_, fun he => ?_, fun he => ?_⟩
  · subst he; rw [(by decide : directiveAction "anyOf" = none)] at h; cases h
  · subst he; rw [(by decide : directiveAction "type" = none)] at h; cases h
  · subst he; rw [(by decide : directiveAction "items" = none)] at h; cases h
  · subst he; rw [(by decide : directiveAction "default" = none)] at h; cases h
  · subst he; rw [(by decide : directiveAction "readOnly" = none)] at h; cases h

/-- Every step of the loop factors through stepEntryRest applied to a dict that
agrees with the incoming one on the key set and on every binding away from the
entry key (the only possible change is writing back the recursively processed
nested dict at the entry key). -/
theorem stepEntry_to_rest (env : Env) (k : String) (v : Val) (cur cur2 : Dict) (n n2 : Nat)
    (h : stepEntry env k v cur n = .ok (cur2, n2)) :
    ∃ c1 n1, stepEntryRest env k v c1 n1 = .ok (cur2, n2) ∧
      (∀ a, a ∈ keysD c1 ↔ a ∈ keysD cur) ∧
      (∀ a, a ≠ k → lookupD c1 a = lookupD cur a) ∧
      (nodupB (keysD cur) = true → nodupB (keysD c1) = true) := by
  cases v with
  | vDict dd =>
    simp only [stepEntry] at h
    cases hp : processSnap env dd dd n with
    | error e => rw [hp] at h; cases h
    | ok r =>
      obtain ⟨dd2, n1⟩ := r
      rw [hp] at h
      simp only at h
      by_cases hl : lookupD cur k = some (Val.vDict dd)
      · rw [if_pos hl] at h
        have hk : k ∈ keysD cur := mem_of_lookupD_eq_some _ _ _ hl
        have hkeys := keysD_insertD_of_mem cur k (Val.vDict dd2) hk
        exact ⟨_, n1, h, fun a => by rw [hkeys], fun a ha => lookupD_insertD_ne _ _ _ _ ha,
          fun hn => nodupB_keysD_insertD _ _ _ hn⟩
      · rw [if_neg hl] at h
        exact ⟨_, n1, h, fun a => Iff.rfl, fun a _ => rfl, fun hn => hn⟩
  | vStr s => exact ⟨cur, n, h, fun a => Iff.rfl, fun a _ => rfl, fun hn => hn⟩
  | vInt i => exact ⟨cur, n, h, fun a => Iff.rfl, fun a _ => rfl, fun hn => hn⟩
  | vBool b => exact ⟨cur, n, h, fun a => Iff.rfl, fun a _ => rfl, fun hn => hn⟩
  | vNull => exact ⟨cur, n, h, fun a => Iff.rfl, fun a _ => rfl, fun hn => hn⟩
  | vList l => exact ⟨cur, n, h, fun a => Iff.rfl, fun a _ => rfl, fun hn => hn⟩

theorem stepEntryRest_directive (env : Env) (k act : String) (v : Val) (c : Dict) (n : Nat)
    (hd : directiveAction k = some act) :
    stepEntryRest env k v c n =
      if k ∈ keysD c then preprocess_router env (popD c k) act v n
      else .error (.keyError k) := by
  obtain ⟨h1, h2, _⟩ := directiveAction_ne k act hd
  have h3 : ¬(k = "type" ∧ v = .vStr "array") := fun hh => h2 hh.1
  simp [stepEntryRest, h1, h3, hd]

/-- Both registered actions produce a dict of the same shape: the routed input
with a default value and the read-only flag written. -/
theorem preprocess_router_ok_shape (env : Env) (i : Dict) (act : String) (v : Val)
    (n : Nat) (r : Dict) (n3 : Nat) (h : preprocess_router env i act v n = .ok (r, n3)) :
    ∃ w, r = insertD (insertD i "default" w) "readOnly" (.vBool true) := by
  unfold preprocess_router at h
  by_cases ha : act = "create_id"
  · rw [if_pos ha] at h
    simp only [preprocess_create_id, Except.ok.injEq, Prod.mk.injEq] at h
    exact ⟨_, h.1.symm⟩
  · rw [if_neg ha] at h
    by_cases hb : act = "settings_val"
    · rw [if_pos hb] at h
      cases v with
      | vStr s =>
        cases hs : env.settings s with
        | none => simp [preprocess_settings_val, hs, Except.map] at h
        | some w =>
          simp only [preprocess_settings_val, hs, Except.map, Except.ok.injEq,
            Prod.mk.injEq] at h
          exact ⟨w, h.1.symm⟩
      | vInt i2 => simp [preprocess_settings_val, Except.map] at h
      | vBool b => simp [preprocess_settings_val, Except.map] at h
      | vNull => simp [preprocess_settings_val, Except.map] at h
      | vList l => simp [preprocess_settings_val, Except.map] at h
      | vDict dd => simp [preprocess_settings_val, Except.map] at h
    · rw [if_neg hb] at h
      cases h

/-- A successful directive step removes the directive key, only ever touches
that key and the default and read-only keys, and preserves key uniqueness. -/
theorem stepEntry_directive (env : Env) (k act : String) (v : Val) (cur cur2 : Dict)
    (n n2 : Nat) (hd : directiveAction k = some act)
    (h : stepEntry env k v cur n = .ok (cur2, n2)) :
    (∀ a, a ≠ k → a ≠ "default" → a ≠ "readOnly" →
      ((a ∈ keysD cur2 ↔ a ∈ keysD cur) ∧ lookupD cur2 a = lookupD cur a)) ∧
    (nodupB (keysD cur) = true → nodupB (keysD cur2) = true) := by
  obtain ⟨c1, n1, hrest, hkeys, hlook, hnod⟩ := stepEntry_to_rest env k v cur cur2 n n2 h
  rw [stepEntryRest_directive env k act v c1 n1 hd] at hrest
  by_cases hk : k ∈ keysD c1
  · rw [if_pos hk] at hrest
    obtain ⟨w, hw⟩ := preprocess_router_ok_shape env _ act v n1 cur2 n2 hrest
    subst hw
    constructor
    · intro a hak had har
      constructor
      · rw [mem_keysD_insertD, mem_keysD_insertD, mem_keysD_popD_ne _ _ _ hak]
        simp [had, har, hkeys a]
      · rw [lookupD_insertD_ne _ _ _ _ har, lookupD_insertD_ne _ _ _ _ had,
          lookupD_popD_ne _ _ _ hak, hlook a hak]
    · intro hn
      exact nodupB_keysD_insertD _ _ _ (nodupB_keysD_insertD _ _ _
        (nodupB_keysD_popD _ _ (hnod hn)))
  · rw [if_neg hk] at hrest
    cases hrest

/-! The two structural collapse steps. -/

theorem stepEntry_anyof_list (env : Env) (alts : List Val) (cur : Dict) (n : Nat) :
    stepEntry env "anyOf" (.vList alts) cur n =
      match preprocess_anyof cur with
      | .error e => .error e
      | .ok c => .ok (c, n) := by
  have hd : directiveAction "anyOf" = none := by decide
  simp only [stepEntry, stepEntryRest, if_pos rfl, hd]
  cases preprocess_anyof cur with
  | error e => rfl
  | ok c =>
    have : ¬("anyOf" = "type" ∧ (Val.vList alts) = .vStr "array") := by simp
    simp [this]

theorem stepEntry_array (env : Env) (cur : Dict) (n : Nat) :
    stepEntry env "type" (.vStr "array") cur n =
      match preprocess_array cur with
      | .error e => .error e
      | .ok c => .ok (c, n) := by
  have hd : directiveAction "type" = none := by decide
  have hna : ("type" : String) ≠ "anyOf" := by decide
  simp only [stepEntry, stepEntryRest, if_neg hna, hd]
  have : (("type" : String) = "type" ∧ (Val.vStr "array") = .vStr "array") := ⟨rfl, rfl⟩
  simp [this]

theorem preprocess_anyof_spec (cur : Dict) (alts : List Val)
    (hl : lookupD cur "anyOf" = some (.vList alts)) :
    preprocess_anyof cur = anyofMerge (popD cur "anyOf") alts := by
  simp [preprocess_anyof, hl]

theorem preprocess_array_spec (cur : Dict)
    (ht : lookupD cur "type" = some (.vStr "array")) (hi : "items" ∈ keysD cur) :
    preprocess_array cur = .ok (insertD (popD cur "items") "type" (.vStr "string")) := by
  simp [preprocess_array, ht, hi]


/-! Characterization of the anyOf merge loop when every alternative is either
the null marker or one fixed non-null alternative. -/

theorem anyofMerge_all_null (alts : List Val) :
    ∀ c : Dict, (∀ x ∈ alts, x = nullMarker) → anyofMerge c alts = .ok c := by
  induction alts with
  | nil => intro c _; rfl
  | cons x rest ih =>
    intro c hall
    have hx : x = nullMarker := hall x (List.mem_cons_self _ _)
    simp only [anyofMerge, if_pos hx]
    exact ih c (fun y hy => hall y (List.mem_cons_of_mem _ hy))

theorem anyofMerge_cons_null (c : Dict) (x : Val) (rest : List Val) (hx : x = nullMarker) :
    anyofMerge c (x :: rest) = anyofMerge c rest := by
  simp [anyofMerge, hx]

theorem anyofMerge_cons_dict (c : Dict) (a : Dict) (rest : List Val)
    (hne : Val.vDict a ≠ nullMarker) :
    anyofMerge c (Val.vDict a :: rest) = anyofMerge (updateD c a) rest := by
  simp [anyofMerge, hne]

theorem anyofMerge_keys (a : Dict) (hna : Val.vDict a ≠ nullMarker) (alts : List Val) :
    ∀ (c r : Dict), (∀ x ∈ alts, x = nullMarker ∨ x = Val.vDict a) →
      anyofMerge c alts = .ok r →
      ∀ b, b ∈ keysD r ↔ (b ∈ keysD c ∨ (Val.vDict a ∈ alts ∧ b ∈ keysD a)) := by
  induction alts with
  | nil =>
    intro c r _ h b
    cases h
    simp
  | cons x rest ih =>
    intro c r hall h b
    have hrest : ∀ y ∈ rest, y = nullMarker ∨ y = Val.vDict a :=
      fun y hy => hall y (List.mem_cons_of_mem _ hy)
    rcases hall x (List.mem_cons_self _ _) with hx | hx
    · rw [anyofMerge_cons_null _ _ _ hx] at h
      rw [ih c r hrest h b]
      constructor
      · rintro (hb | hb)
        · exact Or.inl hb
        · exact Or.inr ⟨List.mem_cons_of_mem _ hb.1, hb.2⟩
      · rintro (hb | hb)
        · exact Or.inl hb
        · rcases List.mem_cons.mp hb.1 with hc | hc
          · exact absurd (hc.trans hx) hna
          · exact Or.inr ⟨hc, hb.2⟩
    · subst hx
      rw [anyofMerge_cons_dict _ _ _ hna] at h
      rw [ih _ r hrest h b, mem_keysD_updateD]
      by_cases hin : Val.vDict a ∈ rest <;> simp [hin, List.mem_cons]

theorem anyofMerge_lookup_outside (a : Dict) (hna : Val.vDict a ≠ nullMarker)
    (alts : List Val) :
    ∀ (c r : Dict), (∀ x ∈ alts, x = nullMarker ∨ x = Val.vDict a) →
      anyofMerge c alts = .ok r →
      ∀ b, b ∉ keysD a → lookupD r b = lookupD c b := by
  induction alts with
  | nil =>
    intro c r _ h b _
    cases h
    rfl
  | cons x rest ih =>
    intro c r hall h b hb
    have hrest : ∀ y ∈ rest, y = nullMarker ∨ y = Val.vDict a :=
      fun y hy => hall y (List.mem_cons_of_mem _ hy)
    rcases hall x (List.mem_cons_self _ _) with hx | hx
    · rw [anyofMerge_cons_null _ _ _ hx] at h
      exact ih c r hrest h b hb
    · subst hx
      rw [anyofMerge_cons_dict _ _ _ hna] at h
      rw [ih _ r hrest h b hb, lookupD_updateD_of_not_mem _ _ _ hb]

theorem anyofMerge_lookup_alt (a : Dict) (hna : Val.vDict a ≠ nullMarker)
    (hnodupa : nodupB (keysD a) = true) (alts : List Val) :
    ∀ (c r : Dict), (∀ x ∈ alts, x = nullMarker ∨ x = Val.vDict a) →
      anyofMerge c alts = .ok r → Val.vDict a ∈ alts →
      ∀ b v, lookupD a b = some v → lookupD r b = some v := by
  induction alts with
  | nil => intro c r _ _ hin; cases hin
  | cons x rest ih =>
    intro c r hall h hin b v hb
    have hrest : ∀ y ∈ rest, y = nullMarker ∨ y = Val.vDict a :=
      fun y hy => hall y (List.mem_cons_of_mem _ hy)
    rcases hall x (List.mem_cons_self _ _) with hx | hx
    · rw [anyofMerge_cons_null _ _ _ hx] at h
      rcases List.mem_cons.mp hin with hc | hc
      · exact absurd (hc.trans hx) hna
      · exact ih c r hrest h hc b v hb
    · subst hx
      rw [anyofMerge_cons_dict _ _ _ hna] at h
      by_cases hinr : Val.vDict a ∈ rest
      · exact ih _ r hrest h hinr b v hb
      · have hallnull : ∀ y ∈ rest, y = nullMarker := by
          intro y hy
          rcases hrest y hy with hy2 | hy2
          · exact hy2
          · exact absurd (hy2 ▸ hy) hinr
        rw [anyofMerge_all_null rest _ hallnull] at h
        cases h
        exact lookupD_updateD_of_lookup a b v c hnodupa hb

theorem anyofMerge_nodup (a : Dict) (hna : Val.vDict a ≠ nullMarker) (alts : List Val) :
    ∀ (c r : Dict), (∀ x ∈ alts, x = nullMarker ∨ x = Val.vDict a) →
      anyofMerge c alts = .ok r → nodupB (keysD c) = true → nodupB (keysD r) = true := by
  induction alts with
  | nil =>
    intro c r _ h hn
    cases h
    exact hn
  | cons x rest ih =>
    intro c r hall h hn
    have hrest : ∀ y ∈ rest, y = nullMarker ∨ y = Val.vDict a :=
      fun y hy => hall y (List.mem_cons_of_mem _ hy)
    rcases hall x (List.mem_cons_self _ _) with hx | hx
    · rw [anyofMerge_cons_null _ _ _ hx] at h
      exact ih c r hrest h hn
    · subst hx
      rw [anyofMerge_cons_dict _ _ _ hna] at h
      exact ih _ r hrest h (nodupB_keysD_updateD _ _ hn)


/-! Documents with no directive or structural keys at any dict nesting depth:
on these the transform is the identity. -/

mutual

/-- A value is clean when every dict reachable through dict values has unique
keys and no anyOf key, no array type binding, and no directive key. -/
def cleanVal : Val → Bool
  | .vDict d => nodupB (keysD d) && cleanEntries d
  | _ => true

/-- Entry-list form of cleanVal. -/
def cleanEntries : List (String × Val) → Bool
  | [] => true
  | (k, v) :: rest =>
    decide (k ≠ "anyOf") && decide (¬(k = "type" ∧ v = .vStr "array")) &&
      (directiveAction k).isNone && cleanVal v && cleanEntries rest

end

theorem processSnap_clean_id (N : Nat) :
    ∀ (env : Env) (snap : List (String × Val)) (cur : Dict) (n : Nat),
      sizeOf snap ≤ N → cleanEntries snap = true → nodupB (keysD cur) = true →
      processSnap env snap cur n = .ok (cur, n) := by
  induction N using Nat.strong_induction_on with
  | _ N IH =>
    intro env snap cur n hsz hclean hnod
    match snap, hclean with
    | [], _ => exact processSnap_nil env cur n
    | (k, v) :: rest, hclean =>
      simp only [cleanEntries, Bool.and_eq_true, decide_eq_true_eq, Option.isNone_iff_eq_none]
        at hclean
      obtain ⟨⟨⟨⟨hk1, hk2⟩, hk3⟩, hv⟩, hrest⟩ := hclean
      have hstep : stepEntry env k v cur n = .ok (cur, n) := by
        cases v with
        | vDict dd =>
          simp only [cleanVal, Bool.and_eq_true] at hv
          have hddsz : sizeOf dd < N := by
            have := hsz
            simp at this
            omega
          have hdd : processSnap env dd dd n = .ok (dd, n) :=
            IH (sizeOf dd) hddsz env dd dd n (Nat.le_refl _) hv.2 hv.1
          simp only [stepEntry, hdd]
          by_cases hl : lookupD cur k = some (Val.vDict dd)
          · rw [if_pos hl, insertD_eq_self_of_lookupD cur k _ hl]
            exact stepEntryRest_benign env k _ cur n hk1 hk2 hk3
          · rw [if_neg hl]
            exact stepEntryRest_benign env k _ cur n hk1 hk2 hk3
        | vStr s => exact stepEntryRest_benign env k _ cur n hk1 hk2 hk3
        | vInt i => exact stepEntryRest_benign env k _ cur n hk1 hk2 hk3
        | vBool b => exact stepEntryRest_benign env k _ cur n hk1 hk2 hk3
        | vNull => exact stepEntryRest_benign env k _ cur n hk1 hk2 hk3
        | vList l => exact stepEntryRest_benign env k _ cur n hk1 hk2 hk3
      rw [processSnap_cons_ok env k v rest cur cur n n hstep]
      have hrsz : sizeOf rest < N := by
        have := hsz
        simp at this
        omega
      exact IH (sizeOf rest) hrsz env rest cur n (Nat.le_refl _) hrest hnod

/-- On a clean document the transform succeeds and is the identity. -/
theorem preprocess_dict_clean_id (env : Env) (d : Dict) (n : Nat)
    (h : cleanVal (.vDict d) = true) : preprocess_dict env d n = .ok (d, n) := by
  simp only [cleanVal, Bool.and_eq_true] at h
  exact processSnap_clean_id (sizeOf d) env d d n (Nat.le_refl _) h.2 h.1


/-! Helpers for locating a special entry inside a document. -/

theorem entry_mem_of_lookupD (d : Dict) (a : String) (v : Val) :
    lookupD d a = some v → (a, v) ∈ d := by
  induction d with
  | nil => intro h; cases h
  | cons p rest ih =>
    intro h
    by_cases hp : p.1 = a
    · have hv : lookupD (p :: rest) a = some p.2 := by simp [lookupD, hp]
      rw [hv] at h
      have : p = (a, v) := by
        obtain ⟨p1, p2⟩ := p
        simp only at hp
        simp only [Option.some.injEq] at h
        simp [hp, h]
      rw [← this]
      exact List.mem_cons_self _ _
    · have hv : lookupD (p :: rest) a = lookupD rest a := by simp [lookupD, hp]
      rw [hv] at h
      exact List.mem_cons_of_mem _ (ih h)

theorem keysD_append (l1 l2 : Dict) : keysD (l1 ++ l2) = keysD l1 ++ keysD l2 := by
  simp [keysD]

theorem nodupB_iff_nodup (l : List String) : nodupB l = true ↔ l.Nodup := by
  induction l with
  | nil => simp [nodupB]
  | cons a r ih => simp [nodupB, List.nodup_cons, ih]

theorem nodupB_middle_not_mem (l1 l2 : List String) (a : String)
    (h : nodupB (l1 ++ a :: l2) = true) : a ∉ l1 ∧ a ∉ l2 := by
  have hn : (l1 ++ a :: l2).Nodup := (nodupB_iff_nodup _).mp h
  have hm : (a :: (l1 ++ l2)).Nodup := List.nodup_middle.mp hn
  have : a ∉ l1 ++ l2 := (List.nodup_cons.mp hm).1
  simp only [List.mem_append] at this
  push_neg at this
  exact this

theorem key_mem_keysD_of_entry_mem (l : Dict) (k : String) (v : Val) (h : (k, v) ∈ l) :
    k ∈ keysD l := List.mem_map.mpr ⟨(k, v), h, rfl⟩


/-- Any step whose key is neither the anyOf discriminator nor the type key
preserves the type binding, the presence of the items key, and key
uniqueness. -/
theorem step_preserves_type_items (env : Env) (k : String) (v : Val) (c c2 : Dict)
    (m m2 : Nat) (hka : k ≠ "anyOf") (hkt : k ≠ "type")
    (h : stepEntry env k v c m = .ok (c2, m2)) :
    lookupD c2 "type" = lookupD c "type" ∧ ("items" ∈ keysD c2 ↔ "items" ∈ keysD c) ∧
      (nodupB (keysD c) = true → nodupB (keysD c2) = true) := by
  cases hda : directiveAction k with
  | none =>
    obtain ⟨hkeys, hlook, hnod⟩ :=
      stepEntry_benign env k v c c2 m m2 hka (fun hh => hkt hh.1) hda h
    exact ⟨hlook "type" (fun hh => hkt hh.symm), hkeys "items", hnod⟩
  | some act =>
    obtain ⟨hmain, hnod⟩ := stepEntry_directive env k act v c c2 m m2 hda h
    obtain ⟨_, _, hki, _, _⟩ := directiveAction_ne k act hda
    have h1 := hmain "type" (fun hh => hkt hh.symm) (by decide) (by decide)
    have h2 := hmain "items" (fun hh => hki hh.symm) (by decide) (by decide)
    exact ⟨h1.2, h2.1, hnod⟩

/-- C3 (amended): on a document whose top level binds type to the array marker
and has an items key and no anyOf key, a successful transform rewrites the
type to the string marker and removes the items key. -/
theorem claim_C3_array_collapse (env : Env) (d r : Dict) (n n2 : Nat)
    (hnod : nodupB (keysD d) = true)
    (ht : lookupD d "type" = some (.vStr "array"))
    (hi : "items" ∈ keysD d)
    (ha : "anyOf" ∉ keysD d)
    (h : preprocess_dict env d n = .ok (r, n2)) :
    lookupD r "type" = some (.vStr "string") ∧ "items" ∉ keysD r := by
  obtain ⟨pre, post, hd⟩ := List.append_of_mem (entry_mem_of_lookupD d "type" _ ht)
  subst hd
  set d := pre ++ ("type", Val.vStr "array") :: post with hd
  have hkeys : keysD d = keysD pre ++ "type" :: keysD post := by
    rw [hd, keysD_append]; rfl
  have htype_not : "type" ∉ keysD pre ∧ "type" ∉ keysD post := by
    apply nodupB_middle_not_mem
    rw [← hkeys]
    exact hnod
  have hpre_sub : ∀ k, k ∈ keysD pre → k ∈ keysD d := by
    intro k hk; rw [hkeys]; simp [hk]
  have hpost_sub : ∀ k, k ∈ keysD post → k ∈ keysD d := by
    intro k hk; rw [hkeys]; simp [hk]
  unfold preprocess_dict at h
  rw [hd, processSnap_append] at h
  cases hpre : processSnap env pre d n with
  | error e => rw [hd] at hpre; rw [hpre] at h; cases h
  | ok p1 =>
    obtain ⟨c1, m1⟩ := p1
    rw [hd] at hpre
    rw [hpre] at h
    simp only at h
    rw [← hd] at hpre
    -- phase A: the invariant up to the array entry
    have hP1 : lookupD c1 "type" = some (.vStr "array") ∧ "items" ∈ keysD c1 ∧
        nodupB (keysD c1) = true := by
      have := processSnap_inv env
        (fun c => lookupD c "type" = some (.vStr "array") ∧ "items" ∈ keysD c ∧
          nodupB (keysD c) = true) pre d n (c1, m1) ?_ hpre ⟨ht, hi, hnod⟩
      · exact this
      · intro k v c m c2 m2 hmem ⟨hPt, hPi, hPn⟩ hstep
        have hk : k ∈ keysD pre := key_mem_keysD_of_entry_mem pre k v hmem
        have hka : k ≠ "anyOf" := fun hh => ha (hpre_sub "anyOf" (by rw [← hh]; exact hk))
        have hkt : k ≠ "type" := fun hh => htype_not.1 (by rw [← hh]; exact hk)
        obtain ⟨e1, e2, e3⟩ := step_preserves_type_items env k v c c2 m m2 hka hkt hstep
        exact ⟨e1.trans hPt, e2.mpr hPi, e3 hPn⟩
    -- the array entry itself
    cases hmid : stepEntry env "type" (.vStr "array") c1 m1 with
    | error e => rw [processSnap_cons_err env _ _ _ _ _ _ hmid] at h; cases h
    | ok p2 =>
      obtain ⟨c2, m2⟩ := p2
      rw [processSnap_cons_ok env _ _ _ _ _ _ _ hmid] at h
      have harr : preprocess_array c1 = .ok (insertD (popD c1 "items") "type" (.vStr "string")) :=
        preprocess_array_spec c1 hP1.1 hP1.2.1
      have hc2 : c2 = insertD (popD c1 "items") "type" (.vStr "string") ∧ m2 = m1 := by
        rw [stepEntry_array, harr] at hmid
        simp only [Except.ok.injEq, Prod.mk.injEq] at hmid
        exact ⟨hmid.1.symm, hmid.2.symm⟩
      have hP2 : lookupD c2 "type" = some (.vStr "string") ∧ "items" ∉ keysD c2 ∧
          nodupB (keysD c2) = true := by
        rw [hc2.1]
        refine ⟨lookupD_insertD_self _ _ _, ?_, ?_⟩
        · rw [mem_keysD_insertD]
          rintro (hm | hm)
          · exact not_mem_keysD_popD c1 "items" hP1.2.2 hm
          · exact absurd hm (by decide)
        · exact nodupB_keysD_insertD _ _ _ (nodupB_keysD_popD _ _ hP1.2.2)
      -- phase B: the invariant after the array entry
      have := processSnap_inv env
        (fun c => lookupD c "type" = some (.vStr "string") ∧ "items" ∉ keysD c ∧
          nodupB (keysD c) = true) post c2 m2 (r, n2) ?_ h hP2
      · exact ⟨this.1, this.2.1⟩
      · intro k v c m c2b m2b hmem ⟨hPt, hPi, hPn⟩ hstep
        have hk : k ∈ keysD post := key_mem_keysD_of_entry_mem post k v hmem
        have hka : k ≠ "anyOf" := fun hh => ha (hpost_sub "anyOf" (by rw [← hh]; exact hk))
        have hkt : k ≠ "type" := fun hh => htype_not.2 (by rw [← hh]; exact hk)
        obtain ⟨e1, e2, e3⟩ := step_preserves_type_items env k v c c2b m m2b hka hkt hstep
        exact ⟨e1.trans hPt, fun hm => hPi (e2.mp hm), e3 hPn⟩


/-! Claim theorems for the schema preprocessor. -/

/-- A concrete environment for evaluating the transform on closed inputs. -/
def envW : Env where
  uuid := fun n => "00000000-0000-4000-8000-" ++ toString n
  settings := fun s => if s = "MEDIA_ROOT" then some (.vStr "/media") else none

/-- C3 counterexample: the claim is false as stated.  On a document carrying
the pair type : array but no items key, the transform raises AssertionError
instead of returning a document with the type rewritten; and on a document
where an anyOf alternative merges an items key back in after the array
collapse, the transform returns a document that still contains items. -/
theorem claim_C3_counterexample :
    preprocess_dict envW [("type", Val.vStr "array")] 0 = .error .assertionError ∧
    preprocess_dict envW
        [("type", Val.vStr "array"), ("items", Val.vDict []),
         ("anyOf", Val.vList [Val.vDict [("items", Val.vDict [])]])] 0 =
      .ok ([("type", Val.vStr "string"), ("items", Val.vDict [])], 0) :=
  ⟨by decide, by decide⟩

/-- C3 witness: the amended claim holds at a concrete document. -/
theorem claim_C3_array_collapse_witness :
    lookupD [("type", Val.vStr "string"), ("title", Val.vStr "t")] "type" =
        some (Val.vStr "string") ∧
      "items" ∉ keysD [("type", Val.vStr "string"), ("title", Val.vStr "t")] :=
  claim_C3_array_collapse envW
    [("type", Val.vStr "array"), ("items", Val.vDict []), ("title", Val.vStr "t")]
    [("type", Val.vStr "string"), ("title", Val.vStr "t")] 0 0
    (by decide) (by decide) (by decide) (by decide) (by decide)

/-- C9: the transform is idempotent on a document with no remaining directive
or structural keys: for every document with no anyOf key, no type : array
binding and no directive key at any dict nesting depth (and the key
uniqueness every Python dict has), transform (transform d) = transform d. -/
theorem claim_C9_transform_idempotent (env : Env) (d : Dict) (n : Nat)
    (h : cleanVal (.vDict d) = true) :
    (preprocess_dict env d n).bind (fun r => preprocess_dict env r.1 r.2) =
      preprocess_dict env d n := by
  rw [preprocess_dict_clean_id env d n h]
  show preprocess_dict env d n = .ok (d, n)
  exact preprocess_dict_clean_id env d n h

/-- C9 witness: idempotence at a concrete clean document. -/
theorem claim_C9_transform_idempotent_witness :
    (preprocess_dict envW [("title", Val.vStr "x"),
        ("properties", Val.vDict [("a", Val.vDict [("type", Val.vStr "string")])])] 0).bind
        (fun r => preprocess_dict envW r.1 r.2) =
      preprocess_dict envW [("title", Val.vStr "x"),
        ("properties", Val.vDict [("a", Val.vDict [("type", Val.vStr "string")])])] 0 :=
  claim_C9_transform_idempotent envW _ 0 (by decide)


theorem lookupD_eq_of_mem_nodup (d : Dict) (k : String) (v : Val)
    (hnod : nodupB (keysD d) = true) (h : (k, v) ∈ d) : lookupD d k = some v := by
  induction d with
  | nil => cases h
  | cons p rest ih =>
    obtain ⟨h1, h2⟩ := (nodupB_cons_iff _ _).mp (by simpa [keysD] using hnod)
    rcases List.mem_cons.mp h with hc | hc
    · rw [← hc]
      simp [lookupD]
    · have hkr : k ∈ keysD rest := key_mem_keysD_of_entry_mem rest k v hc
      have hp : p.1 ≠ k := fun hh => h1 (by rw [hh]; simpa [keysD] using hkr)
      simp only [lookupD, if_neg hp]
      exact ih (by simpa [keysD] using h2) hc

/-- C2 (amended): on a document whose anyOf value is a list in which every
alternative is either the null marker or one fixed non-null alternative a
(present at least once), where a itself carries no anyOf key, the document
binds no type : array pair, and no top-level key is a directive key, a
successful transform removes the anyOf key and keeps every key of a in the
result, alternative keys having been merged over the node. -/
theorem claim_C2_anyof_collapse (env : Env) (d r a : Dict) (alts : List Val) (n n2 : Nat)
    (hnod : nodupB (keysD d) = true)
    (hao : lookupD d "anyOf" = some (.vList alts))
    (hall : ∀ x ∈ alts, x = nullMarker ∨ x = Val.vDict a)
    (hin : Val.vDict a ∈ alts)
    (hna : Val.vDict a ≠ nullMarker)
    (hnoa : "anyOf" ∉ keysD a)
    (hnt : lookupD d "type" ≠ some (.vStr "array"))
    (hndir : ∀ k ∈ keysD d, directiveAction k = none)
    (h : preprocess_dict env d n = .ok (r, n2)) :
    "anyOf" ∉ keysD r ∧ ∀ b ∈ keysD a, b ∈ keysD r := by
  obtain ⟨pre, post, hd⟩ := List.append_of_mem (entry_mem_of_lookupD d "anyOf" _ hao)
  subst hd
  set d := pre ++ ("anyOf", Val.vList alts) :: post with hd
  have hkeys : keysD d = keysD pre ++ "anyOf" :: keysD post := by
    rw [hd, keysD_append]; rfl
  have hanyOf_not : "anyOf" ∉ keysD pre ∧ "anyOf" ∉ keysD post := by
    apply nodupB_middle_not_mem
    rw [← hkeys]
    exact hnod
  have hpre_sub : ∀ k, k ∈ keysD pre → k ∈ keysD d := by
    intro k hk; rw [hkeys]; simp [hk]
  have hpost_sub : ∀ k, k ∈ keysD post → k ∈ keysD d := by
    intro k hk; rw [hkeys]; simp [hk]
  have hpre_mem : ∀ p : String × Val, p ∈ pre → p ∈ d := by
    intro p hp; rw [hd]; exact List.mem_append_left _ hp
  have hpost_mem : ∀ p : String × Val, p ∈ post → p ∈ d := by
    intro p hp; rw [hd]; exact List.mem_append_right _ (List.mem_cons_of_mem _ hp)
  have hnotypearr : ∀ (k : String) (v : Val), (k, v) ∈ d → ¬(k = "type" ∧ v = .vStr "array") := by
    rintro k v hmem ⟨rfl, rfl⟩
    exact hnt (lookupD_eq_of_mem_nodup d _ _ hnod hmem)
  unfold preprocess_dict at h
  rw [hd, processSnap_append] at h
  cases hpre : processSnap env pre d n with
  | error e => rw [hd] at hpre; rw [hpre] at h; cases h
  | ok p1 =>
    obtain ⟨c1, m1⟩ := p1
    rw [hd] at hpre
    rw [hpre] at h
    simp only at h
    rw [← hd] at hpre
    -- phase A: the anyOf binding survives up to its own entry
    have hQ1 : lookupD c1 "anyOf" = some (.vList alts) ∧ nodupB (keysD c1) = true := by
      have := processSnap_inv env
        (fun c => lookupD c "anyOf" = some (.vList alts) ∧ nodupB (keysD c) = true)
        pre d n (c1, m1) ?_ hpre ⟨hao, hnod⟩
      · exact this
      · intro k v c m c2 m2 hmem ⟨hPa, hPn⟩ hstep
        have hk : k ∈ keysD pre := key_mem_keysD_of_entry_mem pre k v hmem
        have hka : k ≠ "anyOf" := fun hh => hanyOf_not.1 (by rw [← hh]; exact hk)
        obtain ⟨hkeys2, hlook, hnodp⟩ := stepEntry_benign env k v c c2 m m2 hka
          (hnotypearr k v (hpre_mem (k, v) hmem)) (hndir k (hpre_sub k hk)) hstep
        exact ⟨(hlook "anyOf" (fun hh => hka hh.symm)).trans hPa, hnodp hPn⟩
    -- the anyOf entry itself
    cases hmid : stepEntry env "anyOf" (.vList alts) c1 m1 with
    | error e => rw [processSnap_cons_err env _ _ _ _ _ _ hmid] at h; cases h
    | ok p2 =>
      obtain ⟨c2, m2⟩ := p2
      rw [processSnap_cons_ok env _ _ _ _ _ _ _ hmid] at h
      have hmerge : anyofMerge (popD c1 "anyOf") alts = .ok c2 ∧ m2 = m1 := by
        rw [stepEntry_anyof_list, preprocess_anyof_spec c1 alts hQ1.1] at hmid
        cases hm : anyofMerge (popD c1 "anyOf") alts with
        | error e => rw [hm] at hmid; cases hmid
        | ok cc =>
          rw [hm] at hmid
          simp only [Except.ok.injEq, Prod.mk.injEq] at hmid
          exact ⟨by rw [hmid.1], hmid.2.symm⟩
      have hc0nod : nodupB (keysD (popD c1 "anyOf")) = true := nodupB_keysD_popD _ _ hQ1.2
      have hc0na : "anyOf" ∉ keysD (popD c1 "anyOf") := not_mem_keysD_popD _ _ hQ1.2
      have hQ2 : ("anyOf" ∉ keysD c2 ∧ ∀ b ∈ keysD a, b ∈ keysD c2) ∧
          nodupB (keysD c2) = true := by
        have hk := anyofMerge_keys a hna alts _ c2 hall hmerge.1
        refine ⟨⟨?_, ?_⟩, anyofMerge_nodup a hna alts _ c2 hall hmerge.1 hc0nod⟩
        · rw [hk "anyOf"]
          rintro (hm | hm)
          · exact hc0na hm
          · exact hnoa hm.2
        · intro b hb
          rw [hk b]
          exact Or.inr ⟨hin, hb⟩
      -- phase B: benign steps preserve the merged keys
      have := processSnap_inv env
        (fun c => ("anyOf" ∉ keysD c ∧ ∀ b ∈ keysD a, b ∈ keysD c) ∧
          nodupB (keysD c) = true) post c2 m2 (r, n2) ?_ h hQ2
      · exact this.1
      · intro k v c m c2b m2b hmem ⟨⟨hPa, hPm⟩, hPn⟩ hstep
        have hk : k ∈ keysD post := key_mem_keysD_of_entry_mem post k v hmem
        have hka : k ≠ "anyOf" := fun hh => hanyOf_not.2 (by rw [← hh]; exact hk)
        obtain ⟨hkeys2, hlook, hnodp⟩ := stepEntry_benign env k v c c2b m m2b hka
          (hnotypearr k v (hpost_mem (k, v) hmem)) (hndir k (hpost_sub k hk)) hstep
        exact ⟨⟨fun hm => hPa ((hkeys2 "anyOf").mp hm),
          fun b hb => (hkeys2 b).mpr (hPm b hb)⟩, hnodp hPn⟩

/-- C2 counterexample: the claim is false as stated.  When the single non-null
alternative itself carries an anyOf key, the merge reintroduces anyOf, so the
transformed document still contains it. -/
theorem claim_C2_counterexample :
    preprocess_dict envW [("anyOf", Val.vList [Val.vDict [("anyOf", Val.vList [])]])] 0 =
        .ok ([("anyOf", Val.vList [])], 0) ∧
      "anyOf" ∈ keysD [("anyOf", Val.vList [])] :=
  ⟨by decide, by decide⟩

/-- C2 witness: the amended claim holds at a concrete document. -/
theorem claim_C2_anyof_collapse_witness :
    "anyOf" ∉ keysD [("default", Val.vNull), ("type", Val.vStr "integer")] ∧
      ∀ b ∈ keysD [("type", Val.vStr "integer")],
        b ∈ keysD [("default", Val.vNull), ("type", Val.vStr "integer")] :=
  claim_C2_anyof_collapse envW
    [("anyOf", Val.vList [Val.vDict [("type", Val.vStr "integer")],
        Val.vDict [("type", Val.vStr "null")]]), ("default", Val.vNull)]
    [("default", Val.vNull), ("type", Val.vStr "integer")]
    [("type", Val.vStr "integer")]
    [Val.vDict [("type", Val.vStr "integer")], Val.vDict [("type", Val.vStr "null")]] 0 0
    (by decide) (by decide) (by decide) (by decide) (by decide) (by decide) (by decide)
    (by decide) (by decide)


/-- C10: a transform call never processes keys introduced into a node during
that same call.  The per-node loop runs over a snapshot of the entries taken
on entry, so when an anyOf collapse merges the keys of a non-null alternative
a whose keys are genuinely new for the node (and the node itself carries no
type : array binding and no directive key), every key of a is bound in the
result to exactly its value in a: merged directive keys stay present with
their action unapplied and merged nested dicts stay untransformed. -/
theorem claim_C10_snapshot_no_reprocessing (env : Env) (d r a : Dict) (alts : List Val)
    (n n2 : Nat)
    (hnod : nodupB (keysD d) = true)
    (hnodupa : nodupB (keysD a) = true)
    (hao : lookupD d "anyOf" = some (.vList alts))
    (hall : ∀ x ∈ alts, x = nullMarker ∨ x = Val.vDict a)
    (hin : Val.vDict a ∈ alts)
    (hna : Val.vDict a ≠ nullMarker)
    (hdisj : ∀ b ∈ keysD a, b ∉ keysD d)
    (hnt : lookupD d "type" ≠ some (.vStr "array"))
    (hndir : ∀ k ∈ keysD d, directiveAction k = none)
    (h : preprocess_dict env d n = .ok (r, n2)) :
    ∀ b ∈ keysD a, lookupD r b = lookupD a b := by
  obtain ⟨pre, post, hd⟩ := List.append_of_mem (entry_mem_of_lookupD d "anyOf" _ hao)
  subst hd
  set d := pre ++ ("anyOf", Val.vList alts) :: post with hd
  have hkeys : keysD d = keysD pre ++ "anyOf" :: keysD post := by
    rw [hd, keysD_append]; rfl
  have hanyOf_not : "anyOf" ∉ keysD pre ∧ "anyOf" ∉ keysD post := by
    apply nodupB_middle_not_mem
    rw [← hkeys]
    exact hnod
  have hpre_sub : ∀ k, k ∈ keysD pre → k ∈ keysD d := by
    intro k hk; rw [hkeys]; simp [hk]
  have hpost_sub : ∀ k, k ∈ keysD post → k ∈ keysD d := by
    intro k hk; rw [hkeys]; simp [hk]
  have hpre_mem : ∀ p : String × Val, p ∈ pre → p ∈ d := by
    intro p hp; rw [hd]; exact List.mem_append_left _ hp
  have hpost_mem : ∀ p : String × Val, p ∈ post → p ∈ d := by
    intro p hp; rw [hd]; exact List.mem_append_right _ (List.mem_cons_of_mem _ hp)
  have hnotypearr : ∀ (k : String) (v : Val), (k, v) ∈ d → ¬(k = "type" ∧ v = .vStr "array") := by
    rintro k v hmem ⟨rfl, rfl⟩
    exact hnt (lookupD_eq_of_mem_nodup d _ _ hnod hmem)
  unfold preprocess_dict at h
  rw [hd, processSnap_append] at h
  cases hpre : processSnap env pre d n with
  | error e => rw [hd] at hpre; rw [hpre] at h; cases h
  | ok p1 =>
    obtain ⟨c1, m1⟩ := p1
    rw [hd] at hpre
    rw [hpre] at h
    simp only at h
    rw [← hd] at hpre
    -- phase A: the anyOf binding survives and the keys of a stay absent
    have hR1 : (lookupD c1 "anyOf" = some (.vList alts) ∧ ∀ b ∈ keysD a, b ∉ keysD c1) ∧
        nodupB (keysD c1) = true := by
      have := processSnap_inv env
        (fun c => (lookupD c "anyOf" = some (.vList alts) ∧ ∀ b ∈ keysD a, b ∉ keysD c) ∧
          nodupB (keysD c) = true)
        pre d n (c1, m1) ?_ hpre ⟨⟨hao, hdisj⟩, hnod⟩
      · exact this
      · intro k v c m c2 m2 hmem ⟨⟨hPa, hPd⟩, hPn⟩ hstep
        have hk : k ∈ keysD pre := key_mem_keysD_of_entry_mem pre k v hmem
        have hka : k ≠ "anyOf" := fun hh => hanyOf_not.1 (by rw [← hh]; exact hk)
        obtain ⟨hkeys2, hlook, hnodp⟩ := stepEntry_benign env k v c c2 m m2 hka
          (hnotypearr k v (hpre_mem (k, v) hmem)) (hndir k (hpre_sub k hk)) hstep
        exact ⟨⟨(hlook "anyOf" (fun hh => hka hh.symm)).trans hPa,
          fun b hb hm => hPd b hb ((hkeys2 b).mp hm)⟩, hnodp hPn⟩
    -- the anyOf entry itself: merged keys carry exactly the values of a
    cases hmid : stepEntry env "anyOf" (.vList alts) c1 m1 with
    | error e => rw [processSnap_cons_err env _ _ _ _ _ _ hmid] at h; cases h
    | ok p2 =>
      obtain ⟨c2, m2⟩ := p2
      rw [processSnap_cons_ok env _ _ _ _ _ _ _ hmid] at h
      have hmerge : anyofMerge (popD c1 "anyOf") alts = .ok c2 := by
        rw [stepEntry_anyof_list, preprocess_anyof_spec c1 alts hR1.1.1] at hmid
        cases hm : anyofMerge (popD c1 "anyOf") alts with
        | error e => rw [hm] at hmid; cases hmid
        | ok cc =>
          rw [hm] at hmid
          simp only [Except.ok.injEq, Prod.mk.injEq] at hmid
          rw [hmid.1]
      have hc0nod : nodupB (keysD (popD c1 "anyOf")) = true := nodupB_keysD_popD _ _ hR1.2
      have hR2 : (∀ b ∈ keysD a, lookupD c2 b = lookupD a b) ∧
          nodupB (keysD c2) = true := by
        refine ⟨?_, anyofMerge_nodup a hna alts _ c2 hall hmerge hc0nod⟩
        intro b hb
        obtain ⟨v, hv⟩ := lookupD_isSome_of_mem a b hb
        rw [hv]
        exact anyofMerge_lookup_alt a hna hnodupa alts _ c2 hall hmerge hin b v hv
      -- phase B: later snapshot entries never touch the merged keys
      have := processSnap_inv env
        (fun c => (∀ b ∈ keysD a, lookupD c b = lookupD a b) ∧ nodupB (keysD c) = true)
        post c2 m2 (r, n2) ?_ h hR2
      · exact this.1
      · intro k v c m c2b m2b hmem ⟨hPl, hPn⟩ hstep
        have hk : k ∈ keysD post := key_mem_keysD_of_entry_mem post k v hmem
        have hka : k ≠ "anyOf" := fun hh => hanyOf_not.2 (by rw [← hh]; exact hk)
        obtain ⟨hkeys2, hlook, hnodp⟩ := stepEntry_benign env k v c c2b m m2b hka
          (hnotypearr k v (hpost_mem (k, v) hmem)) (hndir k (hpost_sub k hk)) hstep
        refine ⟨fun b hb => ?_, hnodp hPn⟩
        have hbk : b ≠ k := fun hh => hdisj b hb (hpost_sub b (by rw [hh]; exact hk))
        rw [hlook b hbk]
        exact hPl b hb

/-- C10 witness: a directive key and a nested dict merged out of an anyOf
alternative are still bound, unprocessed, in the transformed document. -/
theorem claim_C10_snapshot_no_reprocessing_witness :
    lookupD [("title", Val.vStr "T"),
        ("x", Val.vDict [("_preprocess_create_id", Val.vBool true)]),
        ("_preprocess_create_id", Val.vBool true)] "x" =
      lookupD [("x", Val.vDict [("_preprocess_create_id", Val.vBool true)]),
        ("_preprocess_create_id", Val.vBool true)] "x" ∧
    lookupD [("title", Val.vStr "T"),
        ("x", Val.vDict [("_preprocess_create_id", Val.vBool true)]),
        ("_preprocess_create_id", Val.vBool true)] "_preprocess_create_id" =
      lookupD [("x", Val.vDict [("_preprocess_create_id", Val.vBool true)]),
        ("_preprocess_create_id", Val.vBool true)] "_preprocess_create_id" :=
  ⟨claim_C10_snapshot_no_reprocessing envW
    [("anyOf", Val.vList [Val.vDict [("x", Val.vDict [("_preprocess_create_id", Val.vBool true)]),
        ("_preprocess_create_id", Val.vBool true)], Val.vDict [("type", Val.vStr "null")]]),
      ("title", Val.vStr "T")]
    [("title", Val.vStr "T"), ("x", Val.vDict [("_preprocess_create_id", Val.vBool true)]),
      ("_preprocess_create_id", Val.vBool true)]
    [("x", Val.vDict [("_preprocess_create_id", Val.vBool true)]),
      ("_preprocess_create_id", Val.vBool true)]
    [Val.vDict [("x", Val.vDict [("_preprocess_create_id", Val.vBool true)]),
        ("_preprocess_create_id", Val.vBool true)], Val.vDict [("type", Val.vStr "null")]] 0 0
    (by decide) (by decide) (by decide) (by decide) (by decide) (by decide) (by decide)
    (by decide) (by decide) (by decide) "x" (by decide),
  claim_C10_snapshot_no_reprocessing envW
    [("anyOf", Val.vList [Val.vDict [("x", Val.vDict [("_preprocess_create_id", Val.vBool true)]),
        ("_preprocess_create_id", Val.vBool true)], Val.vDict [("type", Val.vStr "null")]]),
      ("title", Val.vStr "T")]
    [("title", Val.vStr "T"), ("x", Val.vDict [("_preprocess_create_id", Val.vBool true)]),
      ("_preprocess_create_id", Val.vBool true)]
    [("x", Val.vDict [("_preprocess_create_id", Val.vBool true)]),
      ("_preprocess_create_id", Val.vBool true)]
    [Val.vDict [("x", Val.vDict [("_preprocess_create_id", Val.vBool true)]),
        ("_preprocess_create_id", Val.vBool true)], Val.vDict [("type", Val.vStr "null")]] 0 0
    (by decide) (by decide) (by decide) (by decide) (by decide) (by decide) (by decide)
    (by decide) (by decide) (by decide) "_preprocess_create_id" (by decide)⟩


/-! Unknown directive actions abort the transform. -/

theorem preprocess_router_unknown (env : Env) (i : Dict) (act : String) (v : Val) (n : Nat)
    (h1 : act ≠ "create_id") (h2 : act ≠ "settings_val") :
    preprocess_router env i act v n = .error (.unknownDirective act) := by
  simp [preprocess_router, h1, h2]

theorem stepEntry_unknown_err (env : Env) (k act : String)
    (hd : directiveAction k = some act)
    (h1 : act ≠ "create_id") (h2 : act ≠ "settings_val") :
    ∀ (v : Val) (cur : Dict) (n : Nat), ∃ e, stepEntry env k v cur n = .error e := by
  intro v cur n
  have hrest : ∀ (c : Dict) (m : Nat), ∃ e, stepEntryRest env k v c m = .error e := by
    intro c m
    rw [stepEntryRest_directive env k act v c m hd]
    by_cases hk : k ∈ keysD c
    · rw [if_pos hk, preprocess_router_unknown env _ act v m h1 h2]
      exact ⟨.unknownDirective act, rfl⟩
    · rw [if_neg hk]
      exact ⟨.keyError k, rfl⟩
  cases v with
  | vDict dd =>
    simp only [stepEntry]
    cases hp : processSnap env dd dd n with
    | error e => exact ⟨e, rfl⟩
    | ok r =>
      obtain ⟨dd2, n1⟩ := r
      simp only
      exact hrest _ n1
  | vStr s => exact hrest cur n
  | vInt i => exact hrest cur n
  | vBool b => exact hrest cur n
  | vNull => exact hrest cur n
  | vList l => exact hrest cur n

theorem processSnap_unknown_err (env : Env) (snap : List (String × Val)) :
    ∀ (cur : Dict) (n : Nat),
      (∃ p ∈ snap, ∃ act, directiveAction p.1 = some act ∧
        act ≠ "create_id" ∧ act ≠ "settings_val") →
      ∃ e, processSnap env snap cur n = .error e := by
  induction snap with
  | nil =>
    rintro cur n ⟨p, hp, _⟩
    cases hp
  | cons q rest ih =>
    rintro cur n ⟨p, hp, act, hact, h1, h2⟩
    rcases List.mem_cons.mp hp with hc | hc
    · obtain ⟨e, he⟩ := stepEntry_unknown_err env p.1 act hact h1 h2 p.2 cur n
      refine ⟨e, ?_⟩
      rw [← hc]
      exact processSnap_cons_err env p.1 p.2 rest cur n e he
    · obtain ⟨k0, v0⟩ := q
      cases hs : stepEntry env k0 v0 cur n with
      | error e => exact ⟨e, processSnap_cons_err env _ _ _ _ _ _ hs⟩
      | ok r =>
        obtain ⟨c1, n1⟩ := r
        obtain ⟨e, he⟩ := ih c1 n1 ⟨p, hc, act, hact, h1, h2⟩
        exact ⟨e, (processSnap_cons_ok env _ _ _ _ _ _ _ hs).trans he⟩

/-- C7: the directive step pops the matching key and routes the captured
action with the node and the snapshot value; an action absent from the fixed
ACTIONS registry raises the unknown-directive error, and a document carrying
such a key at its top level never transforms successfully: the error
propagates and aborts the transform. -/
theorem claim_C7_directive_dispatch :
    (∀ (env : Env) (i : Dict) (act : String) (v : Val) (n : Nat),
      act ≠ "create_id" → act ≠ "settings_val" →
      preprocess_router env i act v n = .error (.unknownDirective act)) ∧
    (∀ (env : Env) (k act : String) (v : Val) (cur : Dict) (n : Nat),
      directiveAction k = some act → (∀ dd, v ≠ .vDict dd) → k ∈ keysD cur →
      stepEntry env k v cur n = preprocess_router env (popD cur k) act v n) ∧
    (∀ (env : Env) (d : Dict) (n : Nat) (k act : String),
      k ∈ keysD d → directiveAction k = some act →
      act ≠ "create_id" → act ≠ "settings_val" →
      ∃ e, preprocess_dict env d n = .error e) := by
  refine ⟨preprocess_router_unknown, ?_, ?_⟩
  · intro env k act v cur n hd hv hk
    have hstep : stepEntry env k v cur n = stepEntryRest env k v cur n := by
      cases v with
      | vDict dd => exact absurd rfl (hv dd)
      | vStr s => rfl
      | vInt i => rfl
      | vBool b => rfl
      | vNull => rfl
      | vList l => rfl
    rw [hstep, stepEntryRest_directive env k act v cur n hd, if_pos hk]
  · intro env d n k act hk hd h1 h2
    obtain ⟨p, hp, hpk⟩ := List.mem_map.mp hk
    exact processSnap_unknown_err env d d n ⟨p, hp, act, by rw [hpk]; exact hd, h1, h2⟩

/-- C7 witness: the unknown action bogus makes the router raise the
unknown-directive error, a known directive entry pops its key and routes, and
a document with the unknown directive key fails to transform. -/
theorem claim_C7_directive_dispatch_witness :
    preprocess_router envW [] "bogus" (Val.vBool true) 0 =
        .error (.unknownDirective "bogus") ∧
      stepEntry envW "_preprocess_create_id" (Val.vBool true)
          [("_preprocess_create_id", Val.vBool true), ("type", Val.vStr "string")] 0 =
        preprocess_router envW
          (popD [("_preprocess_create_id", Val.vBool true), ("type", Val.vStr "string")]
            "_preprocess_create_id") "create_id" (Val.vBool true) 0 ∧
      ∃ e, preprocess_dict envW [("_preprocess_bogus", Val.vBool true)] 0 = .error e :=
  ⟨claim_C7_directive_dispatch.1 envW [] "bogus" (Val.vBool true) 0 (by decide) (by decide),
    claim_C7_directive_dispatch.2.1 envW "_preprocess_create_id" "create_id" (Val.vBool true)
      [("_preprocess_create_id", Val.vBool true), ("type", Val.vStr "string")] 0
      (by decide) (fun dd h => Val.noConfusion h) (by decide),
    claim_C7_directive_dispatch.2.2 envW [("_preprocess_bogus", Val.vBool true)] 0
      "_preprocess_bogus" "bogus" (by decide) (by decide) (by decide) (by decide)⟩


/-! Embedding of start_command (backend/views.py): catalog lookup, argument
validation against the raw schema, and the structured error report. -/

/-- A Python dict key of the error report: jsonschema error paths contain
property names (strings) and array indices (ints), and start_command uses the
last path segment directly as a dict key next to the literal global key. -/
inductive RKey where
  | s (x : String)
  | n (i : Nat)
deriving DecidableEq, Repr

/-- One validation error as consumed by start_command: the relative path and
the human-readable message of a jsonschema error. -/
structure VError where
  relative_path : List RKey
  message : String
deriving DecidableEq, Repr

/-- The error report dict built by start_command. -/
abbrev Report := List (RKey × Val)

/-- Python dict lookup on the report. -/
def rlookup : Report → RKey → Option Val
  | [], _ => none
  | p :: rest, k => if p.1 = k then some p.2 else rlookup rest k

/-- Python dict assignment on the report: replace in place or append. -/
def rinsert : Report → RKey → Val → Report
  | [], k, v => [(k, v)]
  | p :: rest, k, v => if p.1 = k then (k, v) :: rest else p :: rinsert rest k v

theorem rlookup_rinsert_self (r : Report) (k : RKey) (v : Val) :
    rlookup (rinsert r k v) k = some v := by
  induction r with
  | nil => simp [rinsert, rlookup]
  | cons p rest ih =>
    by_cases hp : p.1 = k
    · simp [rinsert, hp, rlookup]
    · simp [rinsert, hp, rlookup, ih]

theorem rlookup_rinsert_ne (r : Report) (k a : RKey) (v : Val) (h : a ≠ k) :
    rlookup (rinsert r k v) a = rlookup r a := by
  have hka : (k = a) = False := eq_false (fun hh => h hh.symm)
  induction r with
  | nil => simp [rinsert, rlookup, hka]
  | cons p rest ih =>
    by_cases hp : p.1 = k
    · simp [rinsert, hp, rlookup, hka]
    · simp [rinsert, hp, rlookup, ih]

theorem mem_rinsert (r : Report) (k : RKey) (v : Val) (p : RKey × Val)
    (h : p ∈ rinsert r k v) : p ∈ r ∨ p = (k, v) := by
  induction r with
  | nil => simpa [rinsert] using h
  | cons q rest ih =>
    by_cases hq : q.1 = k
    · simp only [rinsert, if_pos hq, List.mem_cons] at h
      rcases h with h | h
      · exact Or.inr (by simp [h])
      · exact Or.inl (List.mem_cons_of_mem _ h)
    · simp only [rinsert, if_neg hq, List.mem_cons] at h
      rcases h with h | h
      · exact Or.inl (by simp [h])
      · rcases ih h with h2 | h2
        · exact Or.inl (List.mem_cons_of_mem _ h2)
        · exact Or.inr h2

theorem entry_mem_of_rlookup (r : Report) (a : RKey) (v : Val) :
    rlookup r a = some v → (a, v) ∈ r := by
  induction r with
  | nil => intro h; cases h
  | cons p rest ih =>
    intro h
    by_cases hp : p.1 = a
    · have hv : rlookup (p :: rest) a = some p.2 := by simp [rlookup, hp]
      rw [hv] at h
      have : p = (a, v) := by
        obtain ⟨p1, p2⟩ := p
        simp only at hp
        simp only [Option.some.injEq] at h
        simp [hp, h]
      rw [← this]
      exact List.mem_cons_self _ _
    · have hv : rlookup (p :: rest) a = rlookup rest a := by simp [rlookup, hp]
      rw [hv] at h
      exact List.mem_cons_of_mem _ (ih h)

/-- One iteration of the error loop of start_command: an error with an empty
relative path is appended to the global list (appending to a non-list raises
AttributeError); any other error is stored under its last path segment,
overwriting an earlier message for the same key. -/
def reportStep (r : Report) (e : VError) : Except Err Report :=
  match e.relative_path.getLast? with
  | none =>
    match rlookup r (.s "global") with
    | some (.vList l) => .ok (rinsert r (.s "global") (.vList (l ++ [.vStr e.message])))
    | some _ => .error (.attributeError "append")
    | none => .error (.keyError "global")
  | some k => .ok (rinsert r k (.vStr e.message))

/-- The error loop of start_command from a given starting report. -/
def buildErrorReportFrom : Report → List VError → Except Err Report
  | r, [] => .ok r
  | r, e :: rest =>
    match reportStep r e with
    | .error err => .error err
    | .ok r2 => buildErrorReportFrom r2 rest

/-- views.py start_command: the error report built from the iter_errors
output, starting from the dict holding the empty global bucket. -/
def buildErrorReport (errs : List VError) : Except Err Report :=
  buildErrorReportFrom [(.s "global", .vList [])] errs

/-- Is a value usable as a Python dict key (unhashable dicts and lists raise
TypeError)? -/
def hashable : Val → Bool
  | .vDict _ => false
  | .vList _ => false
  | _ => true

/-- The command catalog built by start_command: a dict comprehension keyed by
the name entry of each command dict, later duplicates winning. -/
def catInsert : List (Val × Dict) → Val → Dict → List (Val × Dict)
  | [], k, v => [(k, v)]
  | p :: rest, k, v => if p.1 = k then (k, v) :: rest else p :: catInsert rest k v

/-- Lookup in the command catalog. -/
def catLookup : List (Val × Dict) → Val → Option Dict
  | [], _ => none
  | p :: rest, k => if p.1 = k then some p.2 else catLookup rest k

/-- The comprehension of start_command over the command metadata list. -/
def buildCatalogFrom : List (Val × Dict) → List Dict → Except Err (List (Val × Dict))
  | acc, [] => .ok acc
  | acc, cmd :: rest =>
    match lookupD cmd "name" with
    | none => .error (.keyError "name")
    | some nm =>
      if hashable nm then buildCatalogFrom (catInsert acc nm cmd) rest
      else .error .typeError

/-- commands = the name-keyed dict over get_command_metadata(). -/
def buildCatalog (metadata : List Dict) : Except Err (List (Val × Dict)) :=
  buildCatalogFrom [] metadata

/-- The observable outcome of start_command: either the DRF ValidationError
payload raised back to the caller, or the scheduling of the execute_command
task with the validated data, the endpoint id and the user id. -/
inductive SCOutcome where
  | validationError (detail : Report)
  | dispatched (validated_data : Dict) (endpoint_id : String) (user_id : Option Nat)
deriving DecidableEq, Repr

/-- backend/views.py start_command.  The jsonschema validator is passed in as
the function iterErrors producing the error list for a schema and an
instance; is_valid holds exactly when that list is empty.  The command lookup
happens before any validation; the execute_command task is dispatched only
after both the lookup and the validation succeed. -/
def start_command (iterErrors : Val → Val → List VError) (metadata : List Dict)
    (endpoint_id : String) (validated_data : Dict) (user_id : Option Nat) :
    Except Err SCOutcome :=
  match lookupD validated_data "cmd_name" with
  | none => .error (.keyError "cmd_name")
  | some cmd_name =>
    match lookupD validated_data "cmd_args" with
    | none => .error (.keyError "cmd_args")
    | some cmd_args =>
      match buildCatalog metadata with
      | .error e => .error e
      | .ok catalog =>
        match catLookup catalog cmd_name with
        | none =>
          .ok (.validationError [(.s "cmd_name",
            .vStr "Command is not valid for this endpoint!")])
        | some cmd =>
          match lookupD cmd "argument_schema" with
          | none => .error (.keyError "argument_schema")
          | some schema =>
            match iterErrors schema cmd_args with
            | [] => .ok (.dispatched validated_data endpoint_id user_id)
            | e :: rest =>
              match buildErrorReport (e :: rest) with
              | .error err => .error err
              | .ok rep => .ok (.validationError rep)

/-- Modelled from the spec: the jsonschema library used by start_command is an
external dependency, not part of this repository.  Following the spec
(standard JSON-Schema draft 2020-12 semantics), this models the two checks the
spec names for the claims: required fields, whose errors carry an empty
relative path, and top-level property type checks, whose errors carry the
property name as their one-segment path. -/
def typeOk (t : String) (v : Val) : Bool :=
  match t, v with
  | "integer", .vInt _ => true
  | "string", .vStr _ => true
  | "boolean", .vBool _ => true
  | "null", .vNull => true
  | "object", .vDict _ => true
  | "array", .vList _ => true
  | _, _ => false

/-- Modelled from the spec: required-field errors (empty path). -/
def requiredErrors (schema inst : Dict) : List VError :=
  match lookupD schema "required" with
  | some (.vList req) =>
    req.filterMap (fun x =>
      match x with
      | .vStr fname =>
        if fname ∈ keysD inst then none
        else some ⟨[], fname ++ " is a required property"⟩
      | _ => none)
  | _ => []

/-- Modelled from the spec: top-level property type errors (one-segment
path). -/
def propertyTypeErrors (schema inst : Dict) : List VError :=
  match lookupD schema "properties" with
  | some (.vDict props) =>
    props.filterMap (fun p =>
      match lookupD inst p.1, p.2 with
      | some v, .vDict psch =>
        match lookupD psch "type" with
        | some (.vStr t) =>
          if typeOk t v then none
          else some ⟨[.s p.1], "value is not of type " ++ t⟩
        | _ => none
      | _, _ => none)
  | _ => []

/-- Modelled from the spec: iter_errors of the external jsonschema validator,
restricted to the checks above. -/
def iter_errors_model (schema inst : Val) : List VError :=
  match schema, inst with
  | .vDict s, .vDict i => requiredErrors s i ++ propertyTypeErrors s i
  | _, _ => []


theorem getLast?_cons_some {α : Type} (a : α) (l : List α) (x : α)
    (h : l.getLast? = some x) : (a :: l).getLast? = some x := by
  cases l with
  | nil => cases h
  | cons b m => rw [List.getLast?_cons_cons]; exact h

theorem getLast?_cons_none {α : Type} (a : α) (l : List α) (h : l.getLast? = none) :
    (a :: l).getLast? = some a := by
  rw [List.getLast?_eq_none_iff.mp h]; rfl

/-- The error loop, run from any report whose global bucket is a list, when no
error keys the literal global bucket: it succeeds, appends every empty-path
message to the global list in order, and binds every other key last-write-wins
to the message of the latest error ending in that key. -/
theorem buildErrorReportFrom_spec (errs : List VError) :
    ∀ (r0 : Report) (gmsgs : List Val),
      (∀ e ∈ errs, e.relative_path.getLast? ≠ some (.s "global")) →
      rlookup r0 (.s "global") = some (.vList gmsgs) →
      ∃ r, buildErrorReportFrom r0 errs = .ok r ∧
        rlookup r (.s "global") =
          some (.vList (gmsgs ++ (errs.filter (fun e => e.relative_path.isEmpty)).map
            (fun e => Val.vStr e.message))) ∧
        ∀ k, k ≠ RKey.s "global" →
          rlookup r k =
            match (errs.filter (fun e =>
                decide (e.relative_path.getLast? = some k))).getLast? with
            | some e => some (.vStr e.message)
            | none => rlookup r0 k := by
  induction errs with
  | nil =>
    intro r0 gmsgs _ hg0
    refine ⟨r0, rfl, by simpa using hg0, fun k _ => by simp⟩
  | cons e rest ih =>
    intro r0 gmsgs hno hg0
    have hnr : ∀ x ∈ rest, x.relative_path.getLast? ≠ some (RKey.s "global") :=
      fun x hx => hno x (List.mem_cons_of_mem _ hx)
    cases hL : e.relative_path.getLast? with
    | none =>
      have hemp : e.relative_path = [] := List.getLast?_eq_none_iff.mp hL
      have hstep : reportStep r0 e =
          .ok (rinsert r0 (.s "global") (.vList (gmsgs ++ [.vStr e.message]))) := by
        simp [reportStep, hL, hg0]
      have hg1 : rlookup (rinsert r0 (.s "global") (.vList (gmsgs ++ [.vStr e.message])))
          (.s "global") = some (.vList (gmsgs ++ [.vStr e.message])) :=
        rlookup_rinsert_self _ _ _
      obtain ⟨r, hr, hrg, hrk⟩ := ih _ (gmsgs ++ [.vStr e.message]) hnr hg1
      refine ⟨r, ?_, ?_, ?_⟩
      · simp only [buildErrorReportFrom, hstep]
        exact hr
      · rw [hrg]
        simp [hemp]
      · intro k hk
        rw [hrk k hk, rlookup_rinsert_ne _ _ _ _ (fun hh => hk hh)]
        have : (e.relative_path.getLast? = some k) = False := by
          rw [hL]; simp
        simp [List.filter, this]
    | some k0 =>
      have hk0 : k0 ≠ RKey.s "global" := by
        intro hh
        exact hno e (List.mem_cons_self _ _) (by rw [hL, hh])
      have hne : e.relative_path ≠ [] := by
        intro hh
        rw [hh] at hL
        cases hL
      have hstep : reportStep r0 e = .ok (rinsert r0 k0 (.vStr e.message)) := by
        simp [reportStep, hL]
      have hg1 : rlookup (rinsert r0 k0 (.vStr e.message)) (.s "global") =
          some (.vList gmsgs) := by
        rw [rlookup_rinsert_ne _ _ _ _ (fun hh => hk0 hh.symm)]
        exact hg0
      obtain ⟨r, hr, hrg, hrk⟩ := ih _ gmsgs hnr hg1
      refine ⟨r, ?_, ?_, ?_⟩
      · simp only [buildErrorReportFrom, hstep]
        exact hr
      · rw [hrg]
        have : e.relative_path.isEmpty = false := by
          cases hp : e.relative_path with
          | nil => exact absurd hp hne
          | cons x xs => simp
        simp [this]
      · intro k hk
        rw [hrk k hk]
        by_cases hkk : k0 = k
        · subst hkk
          have hT : (e.relative_path.getLast? = some k0) = True := by rw [hL]; simp
          have hfe : (e :: rest).filter (fun x =>
              decide (x.relative_path.getLast? = some k0)) =
              e :: rest.filter (fun x => decide (x.relative_path.getLast? = some k0)) := by
            simp [List.filter, hT]
          rw [hfe]
          cases hfl : (rest.filter (fun x =>
              decide (x.relative_path.getLast? = some k0))).getLast? with
          | none =>
            rw [getLast?_cons_none _ _ hfl]
            simp [rlookup_rinsert_self]
          | some e2 =>
            rw [getLast?_cons_some _ _ _ hfl]
        · have hF : (e.relative_path.getLast? = some k) = False := by
            rw [hL]
            simp only [Option.some.injEq, eq_iff_iff, iff_false]
            exact hkk
          have hfe : (e :: rest).filter (fun x =>
              decide (x.relative_path.getLast? = some k)) =
              rest.filter (fun x => decide (x.relative_path.getLast? = some k)) := by
            simp [List.filter, hF]
          rw [hfe, rlookup_rinsert_ne _ _ _ _ (fun hh => hkk hh.symm)]


/-- C4 (amended): when validation fails and no failing last path segment is
the literal string global, the report maps global to exactly the messages of
the empty-path errors in order, and maps every other key, last-write-wins, to
the message of the latest error whose last path segment is that key. -/
theorem claim_C4_error_report_structure (errs : List VError)
    (hg : ∀ e ∈ errs, e.relative_path.getLast? ≠ some (.s "global")) :
    ∃ r, buildErrorReport errs = .ok r ∧
      rlookup r (.s "global") =
        some (.vList ((errs.filter (fun e => e.relative_path.isEmpty)).map
          (fun e => Val.vStr e.message))) ∧
      ∀ k, k ≠ RKey.s "global" →
        rlookup r k =
          match (errs.filter (fun e =>
              decide (e.relative_path.getLast? = some k))).getLast? with
          | some e => some (.vStr e.message)
          | none => none := by
  obtain ⟨r, h1, h2, h3⟩ := buildErrorReportFrom_spec errs
    [(.s "global", .vList [])] [] hg (by simp [rlookup])
  refine ⟨r, h1, by simpa using h2, fun k hk => ?_⟩
  have hinit : rlookup [(RKey.s "global", Val.vList [])] k = none := by
    have : (RKey.s "global" = k) = False := eq_false (fun hh => hk hh.symm)
    simp [rlookup, this]
  rw [h3 k hk, hinit]

/-- C4 counterexample: the claim is false as stated.  A failing field whose
name is the literal string global overwrites the global bucket with a plain
message string, so the report does not map global to the collection of
empty-path errors; and a subsequent empty-path error then crashes the report
construction with AttributeError instead of producing a report. -/
theorem claim_C4_counterexample :
    buildErrorReport [⟨[.s "global"], "boom"⟩] = .ok [(.s "global", .vStr "boom")] ∧
      buildErrorReport [⟨[.s "global"], "boom"⟩, ⟨[], "missing"⟩] =
        .error (.attributeError "append") :=
  ⟨by decide, by decide⟩

/-- The single validation error of the spec scenario: cmd_args with count
bound to the string five against a schema requiring an integer count. -/
def scenarioErrs : List VError :=
  iter_errors_model
    (.vDict [("properties", Val.vDict [("count", Val.vDict [("type", Val.vStr "integer")])]),
      ("required", Val.vList [Val.vStr "count"])])
    (.vDict [("count", Val.vStr "five")])

/-- C4 witness: the amended claim at the scenario of the spec, whose report
has a count bucket and an empty global bucket. -/
theorem claim_C4_error_report_structure_witness :
    (∃ r, buildErrorReport scenarioErrs = .ok r ∧
      rlookup r (.s "global") =
        some (.vList ((scenarioErrs.filter (fun e => e.relative_path.isEmpty)).map
          (fun e => Val.vStr e.message))) ∧
      ∀ k, k ≠ RKey.s "global" →
        rlookup r k =
          match (scenarioErrs.filter (fun e =>
              decide (e.relative_path.getLast? = some k))).getLast? with
          | some e => some (.vStr e.message)
          | none => none) ∧
      buildErrorReport scenarioErrs =
        .ok [(.s "global", .vList []),
          (.s "count", .vStr "value is not of type integer")] :=
  ⟨claim_C4_error_report_structure scenarioErrs (by decide), by decide⟩

/-- C8 (amended): in every report built on validation failure the global
bucket holds a sequence of strings and every per-field bucket holds a single
string; so not every bucket is a sequence of strings. -/
theorem claim_C8_report_shape (errs : List VError) (r : Report)
    (h : buildErrorReport errs = .ok r) :
    ∀ p ∈ r, (∃ l, p.2 = Val.vList l ∧ ∀ x ∈ l, ∃ s, x = Val.vStr s) ∨
      ∃ s, p.2 = Val.vStr s := by
  have main : ∀ (es : List VError) (r0 rr : Report),
      (∀ p ∈ r0, (∃ l, p.2 = Val.vList l ∧ ∀ x ∈ l, ∃ s, x = Val.vStr s) ∨
        ∃ s, p.2 = Val.vStr s) →
      buildErrorReportFrom r0 es = .ok rr →
      ∀ p ∈ rr, (∃ l, p.2 = Val.vList l ∧ ∀ x ∈ l, ∃ s, x = Val.vStr s) ∨
        ∃ s, p.2 = Val.vStr s := by
    intro es
    induction es with
    | nil =>
      intro r0 rr h0 hrr
      cases hrr
      exact h0
    | cons e rest ih =>
      intro r0 rr h0 hrr
      cases hL : e.relative_path.getLast? with
      | none =>
        cases hg : rlookup r0 (.s "global") with
        | none => simp [buildErrorReportFrom, reportStep, hL, hg] at hrr
        | some g =>
          cases g with
          | vList l =>
            have hstep : reportStep r0 e =
                .ok (rinsert r0 (.s "global") (.vList (l ++ [.vStr e.message]))) := by
              simp [reportStep, hL, hg]
            rw [buildErrorReportFrom, hstep] at hrr
            refine ih _ rr ?_ hrr
            intro p hp
            rcases mem_rinsert _ _ _ p hp with hm | hm
            · exact h0 p hm
            · left
              have hmem := entry_mem_of_rlookup r0 (.s "global") _ hg
              have hshape : ∃ lls, Val.vList l = Val.vList lls ∧
                  ∀ x ∈ lls, ∃ s, x = Val.vStr s := by
                rcases h0 _ hmem with hsh | hsh
                · exact hsh
                · obtain ⟨s, hs⟩ := hsh
                  cases hs
              obtain ⟨ls, hls, hall⟩ := hshape
              have hleq : l = ls := by simpa using hls
              subst hleq
              refine ⟨l ++ [.vStr e.message], by rw [hm], ?_⟩
              intro x hx
              rcases List.mem_append.mp hx with hx | hx
              · exact hall x hx
              · simp only [List.mem_singleton] at hx
                exact ⟨e.message, hx⟩
          | vStr s => simp [buildErrorReportFrom, reportStep, hL, hg] at hrr
          | vInt i => simp [buildErrorReportFrom, reportStep, hL, hg] at hrr
          | vBool b => simp [buildErrorReportFrom, reportStep, hL, hg] at hrr
          | vNull => simp [buildErrorReportFrom, reportStep, hL, hg] at hrr
          | vDict dd => simp [buildErrorReportFrom, reportStep, hL, hg] at hrr
      | some k =>
        have hstep : reportStep r0 e = .ok (rinsert r0 k (.vStr e.message)) := by
          simp [reportStep, hL]
        rw [buildErrorReportFrom, hstep] at hrr
        refine ih _ rr ?_ hrr
        intro p hp
        rcases mem_rinsert _ _ _ p hp with hm | hm
        · exact h0 p hm
        · right
          exact ⟨e.message, by rw [hm]⟩
  refine main errs _ r ?_ h
  intro p hp
  simp only [List.mem_singleton] at hp
  left
  exact ⟨[], by rw [hp], by simp⟩

/-- C8 counterexample: the claim is false as stated.  A single type error on
the field count yields a report whose count bucket is the plain message
string, not a sequence of strings. -/
theorem claim_C8_counterexample :
    buildErrorReport [⟨[.s "count"], "not an integer"⟩] =
      .ok [(.s "global", .vList []), (.s "count", .vStr "not an integer")] := by
  decide

/-- C8 witness: the amended shape at the two buckets of a concrete report. -/
theorem claim_C8_report_shape_witness :
    ((∃ l, ((RKey.s "global", Val.vList [Val.vStr "m1"]) : RKey × Val).2 = Val.vList l ∧
        ∀ x ∈ l, ∃ s, x = Val.vStr s) ∨
      ∃ s, ((RKey.s "global", Val.vList [Val.vStr "m1"]) : RKey × Val).2 = Val.vStr s) ∧
    ((∃ l, ((RKey.s "f", Val.vStr "m2") : RKey × Val).2 = Val.vList l ∧
        ∀ x ∈ l, ∃ s, x = Val.vStr s) ∨
      ∃ s, ((RKey.s "f", Val.vStr "m2") : RKey × Val).2 = Val.vStr s) :=
  ⟨claim_C8_report_shape [⟨[], "m1"⟩, ⟨[.s "f"], "m2"⟩]
      [((RKey.s "global"), Val.vList [Val.vStr "m1"]), (RKey.s "f", Val.vStr "m2")] (by decide)
      (RKey.s "global", Val.vList [Val.vStr "m1"]) (by decide),
    claim_C8_report_shape [⟨[], "m1"⟩, ⟨[.s "f"], "m2"⟩]
      [((RKey.s "global"), Val.vList [Val.vStr "m1"]), (RKey.s "f", Val.vStr "m2")] (by decide)
      (RKey.s "f", Val.vStr "m2") (by decide)⟩


/-- C6: when the command name is absent from the command catalog of the
endpoint agent, start_command raises the unknown-command ValidationError
without the validator ever being consulted (the outcome is identical for any
validator), and a dispatch of the execute_command task happens only when the
catalog lookup and the schema validation both succeed, so invalid arguments
never reach the orchestrator. -/
theorem claim_C6_lookup_before_validation :
    (∀ (f g : Val → Val → List VError) (metadata : List Dict) (eid : String)
        (vd : Dict) (uid : Option Nat) (cmd_name cmd_args : Val)
        (catalog : List (Val × Dict)),
      lookupD vd "cmd_name" = some cmd_name → lookupD vd "cmd_args" = some cmd_args →
      buildCatalog metadata = .ok catalog → catLookup catalog cmd_name = none →
      start_command f metadata eid vd uid =
          .ok (.validationError [(.s "cmd_name",
            .vStr "Command is not valid for this endpoint!")]) ∧
        start_command f metadata eid vd uid = start_command g metadata eid vd uid) ∧
    (∀ (f : Val → Val → List VError) (metadata : List Dict) (eid : String)
        (vd vd2 : Dict) (uid uid2 : Option Nat) (eid2 : String),
      start_command f metadata eid vd uid = .ok (.dispatched vd2 eid2 uid2) →
      vd2 = vd ∧ eid2 = eid ∧ uid2 = uid ∧
      ∃ cmd_name cmd_args catalog cmd schema,
        lookupD vd "cmd_name" = some cmd_name ∧ lookupD vd "cmd_args" = some cmd_args ∧
        buildCatalog metadata = .ok catalog ∧ catLookup catalog cmd_name = some cmd ∧
        lookupD cmd "argument_schema" = some schema ∧ f schema cmd_args = []) := by
  constructor
  · intro f g metadata eid vd uid cmd_name cmd_args catalog h1 h2 h3 h4
    constructor
    · simp [start_command, h1, h2, h3, h4]
    · simp [start_command, h1, h2, h3, h4]
  · intro f metadata eid vd vd2 uid uid2 eid2 h
    unfold start_command at h
    cases h1 : lookupD vd "cmd_name" with
    | none => rw [h1] at h; cases h
    | some cmd_name =>
      simp only [h1] at h
      cases h2 : lookupD vd "cmd_args" with
      | none => rw [h2] at h; cases h
      | some cmd_args =>
        simp only [h2] at h
        cases h3 : buildCatalog metadata with
        | error e => rw [h3] at h; cases h
        | ok catalog =>
          simp only [h3] at h
          cases h4 : catLookup catalog cmd_name with
          | none =>
            simp only [h4, Except.ok.injEq] at h
            cases h
          | some cmd =>
            simp only [h4] at h
            cases h5 : lookupD cmd "argument_schema" with
            | none => rw [h5] at h; cases h
            | some schema =>
              simp only [h5] at h
              cases h6 : f schema cmd_args with
              | nil =>
                simp only [h6, Except.ok.injEq, SCOutcome.dispatched.injEq] at h
                refine ⟨h.1.symm, h.2.1.symm, h.2.2.symm,
                  cmd_name, cmd_args, catalog, cmd, schema, ?_, ?_, ?_, ?_, ?_, h6⟩ <;>
                  simp [h1, h2, h3, h4, h5]
              | cons e0 rest0 =>
                simp only [h6] at h
                cases h7 : buildErrorReport (e0 :: rest0) with
                | error err => rw [h7] at h; cases h
                | ok rep =>
                  simp only [h7, Except.ok.injEq] at h
                  cases h

/-- C6 witness: unknown commands fail identically for two different
validators, and a concrete successful dispatch implies the lookup and
validation facts. -/
theorem claim_C6_lookup_before_validation_witness :
    (start_command iter_errors_model
          [[("name", Val.vStr "whoami"), ("argument_schema", Val.vDict [])]] "ep1"
          [("cmd_name", Val.vStr "nope"), ("cmd_args", Val.vDict [])] (some 1) =
        .ok (.validationError [(.s "cmd_name",
          .vStr "Command is not valid for this endpoint!")]) ∧
      start_command iter_errors_model
          [[("name", Val.vStr "whoami"), ("argument_schema", Val.vDict [])]] "ep1"
          [("cmd_name", Val.vStr "nope"), ("cmd_args", Val.vDict [])] (some 1) =
        start_command (fun _ _ => [])
          [[("name", Val.vStr "whoami"), ("argument_schema", Val.vDict [])]] "ep1"
          [("cmd_name", Val.vStr "nope"), ("cmd_args", Val.vDict [])] (some 1)) ∧
      ([("cmd_name", Val.vStr "whoami"), ("cmd_args", Val.vDict [])] : Dict) =
          [("cmd_name", Val.vStr "whoami"), ("cmd_args", Val.vDict [])] ∧
        ("ep1" : String) = "ep1" ∧ (some 1 : Option Nat) = some 1 ∧
        ∃ cmd_name cmd_args catalog cmd schema,
          lookupD [("cmd_name", Val.vStr "whoami"), ("cmd_args", Val.vDict [])] "cmd_name" =
              some cmd_name ∧
            lookupD [("cmd_name", Val.vStr "whoami"), ("cmd_args", Val.vDict [])] "cmd_args" =
              some cmd_args ∧
            buildCatalog [[("name", Val.vStr "whoami"), ("argument_schema", Val.vDict [])]] =
              .ok catalog ∧
            catLookup catalog cmd_name = some cmd ∧
            lookupD cmd "argument_schema" = some schema ∧
            iter_errors_model schema cmd_args = [] :=
  ⟨claim_C6_lookup_before_validation.1 iter_errors_model (fun _ _ => [])
      [[("name", Val.vStr "whoami"), ("argument_schema", Val.vDict [])]] "ep1"
      [("cmd_name", Val.vStr "nope"), ("cmd_args", Val.vDict [])] (some 1)
      (Val.vStr "nope") (Val.vDict [])
      [(Val.vStr "whoami", [("name", Val.vStr "whoami"), ("argument_schema", Val.vDict [])])]
      (by decide) (by decide) (by decide) (by decide),
    claim_C6_lookup_before_validation.2 iter_errors_model
      [[("name", Val.vStr "whoami"), ("argument_schema", Val.vDict [])]] "ep1"
      [("cmd_name", Val.vStr "whoami"), ("cmd_args", Val.vDict [])]
      [("cmd_name", Val.vStr "whoami"), ("cmd_args", Val.vDict [])]
      (some 1) (some 1) "ep1" (by decide)⟩


/-! Embedding of the Celery tasks (backend/tasks.py): execute_command and
receive_messages with its artifact ingestion. -/

/-- The command request payload carried by a dispatched message. -/
structure CommandRequestPayload where
  cmd_name : Val
  cmd_args : Val
deriving DecidableEq, Repr

/-- A file artifact of a CommandResponsePayload (deaddrop_meta File): file_id
is the agent-minted UUID, the sole deduplication key on ingestion. -/
structure FileArtifact where
  file_id : String
  remote_path : Option String
  file_data : String
deriving DecidableEq, Repr

/-- A credential artifact of a CommandResponsePayload (deaddrop_meta
Credential). -/
structure CredentialArtifact where
  credential_id : String
  credential_type : String
  value : String
  expiry : Option Nat
deriving DecidableEq, Repr

/-- The payload of a DeadDropMessage as observed by the tasks: a command
request, a command response carrying artifacts, or anything else (skipped by
receive_messages). -/
inductive MsgPayload where
  | cmdRequest (p : CommandRequestPayload)
  | cmdResponse (files : List FileArtifact) (credentials : List CredentialArtifact)
  | other
deriving DecidableEq, Repr

/-- Modelled from the spec: DeadDropMessage of the external deaddrop_meta
library.  execute_command passes user_id, payload and destination_id; per the
spec the defaults supply a freshly generated message id (default factory), no
source id (implying server origin), the current timestamp, and no signature
(the message is not signed by the server). -/
structure DeadDropMessage where
  message_id : String
  user_id : Option Nat
  source_id : Option String
  destination_id : String
  timestamp : Nat
  payload : MsgPayload
  digest : Option String
deriving DecidableEq, Repr

/-- External collaborators of the tasks: the user and endpoint tables, the
TaskResult row of the current task (created by the before_task_publish
signal), the current task id, the construction-time defaults of
DeadDropMessage, and the messaging package send and receive operations. -/
structure TaskEnv where
  userExists : Nat → Bool
  endpointExists : String → Bool
  taskResultExists : Bool
  taskId : String
  freshMsgId : String
  now : Nat
  send : DeadDropMessage → String → Except Err Val
  recv : String → Option String → Except Err (List DeadDropMessage)

/-- tasks.py add_user_id_to_task: nothing happens for an anonymous task; a
set user id must resolve (User.DoesNotExist is not caught) and the TaskResult
row of the current task is stamped with the user. -/
def add_user_id_to_task (env : TaskEnv) (user_id : Option Nat) : Except Err Unit :=
  match user_id with
  | none => .ok ()
  | some uid =>
    if env.userExists uid then
      if env.taskResultExists then .ok () else .error (.doesNotExist "TaskResult")
    else .error (.doesNotExist "User")

/-- A scheduled receive_messages task (receive_messages.delay call). -/
structure ReceiveTask where
  endpoint_id : String
  user_id : Option Nat
  request_id : Option String
deriving DecidableEq, Repr

/-- The observable outcome of a successful execute_command run: the message
handed to the transport, the raw transport result returned, and the receive
tasks scheduled. -/
structure ExecOutcome where
  sent : DeadDropMessage
  result : Val
  scheduled : List ReceiveTask
deriving DecidableEq, Repr

/-- tasks.py execute_command: attribute the task to the user, resolve the
endpoint (RuntimeError if absent), construct the DeadDropMessage with a
CommandRequestPayload of the validated data, send it through the messaging
unit, then asynchronously start exactly one receive_messages task for the
same endpoint and user with this message id as the request id, and return the
raw messaging result. -/
def execute_command (env : TaskEnv) (validated_data : Dict) (endpoint_id : String)
    (user_id : Option Nat) : Except Err ExecOutcome :=
  match add_user_id_to_task env user_id with
  | .error e => .error e
  | .ok _ =>
    if env.endpointExists endpoint_id then
      match lookupD validated_data "cmd_name" with
      | none => .error (.keyError "cmd_name")
      | some cmd_name =>
        match lookupD validated_data "cmd_args" with
        | none => .error (.keyError "cmd_args")
        | some cmd_args =>
          let msg : DeadDropMessage :=
            { message_id := env.freshMsgId
              user_id := user_id
              source_id := none
              destination_id := endpoint_id
              timestamp := env.now
              payload := .cmdRequest ⟨cmd_name, cmd_args⟩
              digest := none }
          match env.send msg endpoint_id with
          | .error e => .error e
          | .ok result => .ok ⟨msg, result, [⟨endpoint_id, user_id, some msg.message_id⟩]⟩
    else .error (.doesNotExist "Endpoint")

/-- A durable File row (backend/models.py File): the primary key file_id plus
the owning task and source endpoint stamped by receive_messages. -/
structure FileRec where
  file_id : String
  task_id : String
  source_id : String
  remote_path : Option String
deriving DecidableEq, Repr

/-- A durable Credential row (backend/models.py Credential). -/
structure CredRec where
  credential_id : String
  task_id : String
  source_id : String
  credential_type : String
  credential_value : String
  expiry : Option Nat
deriving DecidableEq, Repr

/-- The durable stores and the warning log touched by receive_messages. -/
structure Store where
  files : List FileRec
  creds : List CredRec
  warnings : List String
deriving DecidableEq, Repr

/-- The file ids of the durable file store. -/
def fileIds (st : Store) : List String := st.files.map FileRec.file_id

/-- The credential ids of the durable credential store. -/
def credIds (st : Store) : List String := st.creds.map CredRec.credential_id

/-- tasks.py receive_messages, files loop body: build the File row from the
artifact, attach the TaskResult of the current task and the source endpoint
(both lookups raise DoesNotExist if they fail, which is not caught), and
save.  The save is a forced INSERT because the primary key field has a
default, so it raises IntegrityError exactly when the file_id primary key
already exists; that one exception is caught, a warning is logged, and the
loop continues with the next artifact. -/
def ingestFile (env : TaskEnv) (endpoint_id : String) (f : FileArtifact) (st : Store) :
    Except Err Store :=
  if env.taskResultExists then
    if env.endpointExists endpoint_id then
      if f.file_id ∈ fileIds st then
        .ok { st with warnings := st.warnings ++ ["duplicate file " ++ f.file_id] }
      else
        .ok { st with files :=
          st.files ++ [⟨f.file_id, env.taskId, endpoint_id, f.remote_path⟩] }
    else .error (.doesNotExist "Endpoint")
  else .error (.doesNotExist "TaskResult")

/-- tasks.py receive_messages, credentials loop body, same shape as the file
ingestion. -/
def ingestCred (env : TaskEnv) (endpoint_id : String) (c : CredentialArtifact)
    (st : Store) : Except Err Store :=
  if env.taskResultExists then
    if env.endpointExists endpoint_id then
      if c.credential_id ∈ credIds st then
        .ok { st with warnings := st.warnings ++ ["duplicate credential " ++ c.credential_id] }
      else
        .ok { st with creds :=
          st.creds ++ [⟨c.credential_id, env.taskId, endpoint_id, c.credential_type,
            c.value, c.expiry⟩] }
    else .error (.doesNotExist "Endpoint")
  else .error (.doesNotExist "TaskResult")

/-- The files loop of receive_messages. -/
def ingestFiles (env : TaskEnv) (endpoint_id : String) :
    List FileArtifact → Store → Except Err Store
  | [], st => .ok st
  | f :: rest, st =>
    match ingestFile env endpoint_id f st with
    | .error e => .error e
    | .ok st2 => ingestFiles env endpoint_id rest st2

/-- The credentials loop of receive_messages. -/
def ingestCreds (env : TaskEnv) (endpoint_id : String) :
    List CredentialArtifact → Store → Except Err Store
  | [], st => .ok st
  | c :: rest, st =>
    match ingestCred env endpoint_id c st with
    | .error e => .error e
    | .ok st2 => ingestCreds env endpoint_id rest st2

/-- The message loop of receive_messages: only CommandResponsePayload
messages are processed, files first, then credentials. -/
def processMsg (env : TaskEnv) (endpoint_id : String) (msg : DeadDropMessage)
    (st : Store) : Except Err Store :=
  match msg.payload with
  | .cmdResponse files creds =>
    match ingestFiles env endpoint_id files st with
    | .error e => .error e
    | .ok st2 => ingestCreds env endpoint_id creds st2
  | _ => .ok st

/-- All messages of one receive cycle, in order. -/
def processMsgs (env : TaskEnv) (endpoint_id : String) :
    List DeadDropMessage → Store → Except Err Store
  | [], st => .ok st
  | m :: rest, st =>
    match processMsg env endpoint_id m st with
    | .error e => .error e
    | .ok st2 => processMsgs env endpoint_id rest st2

/-- tasks.py receive_messages: attribute the task to the user, resolve the
endpoint, poll the messaging unit for all new messages, ingest the artifacts
of every command response, and return the received messages as the task
result. -/
def receive_messages (env : TaskEnv) (endpoint_id : String) (user_id : Option Nat)
    (request_id : Option String) (st : Store) :
    Except Err (Store × List DeadDropMessage) :=
  match add_user_id_to_task env user_id with
  | .error e => .error e
  | .ok _ =>
    if env.endpointExists endpoint_id then
      match env.recv endpoint_id request_id with
      | .error e => .error e
      | .ok msgs =>
        match processMsgs env endpoint_id msgs st with
        | .error e => .error e
        | .ok st2 => .ok (st2, msgs)
    else .error (.doesNotExist "Endpoint")


/-- C5: every successful dispatch sends a message whose id is the freshly
generated construction-time id, whose source is absent (server origin), whose
destination is the request endpoint, which is unsigned, and whose payload is
the CommandRequestPayload of the submitted cmd_name and cmd_args; and after
the send returns it schedules exactly one receive task for the same endpoint
with the same initiating user and this message id as the correlation hint. -/
theorem claim_C5_dispatch_message (env : TaskEnv) (vd : Dict) (eid : String)
    (uid : Option Nat) (r : ExecOutcome)
    (h : execute_command env vd eid uid = .ok r) :
    r.sent.message_id = env.freshMsgId ∧ r.sent.source_id = none ∧
      r.sent.destination_id = eid ∧ r.sent.digest = none ∧
      (∃ cn ca, lookupD vd "cmd_name" = some cn ∧ lookupD vd "cmd_args" = some ca ∧
        r.sent.payload = .cmdRequest ⟨cn, ca⟩) ∧
      r.scheduled = [⟨eid, uid, some r.sent.message_id⟩] := by
  unfold execute_command at h
  cases h0 : add_user_id_to_task env uid with
  | error e => rw [h0] at h; cases h
  | ok u =>
    simp only [h0] at h
    by_cases he : env.endpointExists eid = true
    · rw [if_pos he] at h
      cases h1 : lookupD vd "cmd_name" with
      | none => rw [h1] at h; cases h
      | some cn =>
        simp only [h1] at h
        cases h2 : lookupD vd "cmd_args" with
        | none => rw [h2] at h; cases h
        | some ca =>
          simp only [h2] at h
          cases h3 : env.send
              { message_id := env.freshMsgId, user_id := uid, source_id := none,
                destination_id := eid, timestamp := env.now,
                payload := .cmdRequest ⟨cn, ca⟩, digest := none } eid with
          | error e => rw [h3] at h; cases h
          | ok result =>
            simp only [h3, Except.ok.injEq] at h
            subst h
            exact ⟨rfl, rfl, rfl, rfl, ⟨cn, ca, rfl, rfl, rfl⟩, rfl⟩
    · rw [if_neg he] at h
      cases h

/-- A concrete task environment for the witnesses. -/
def envT : TaskEnv where
  userExists := fun _ => true
  endpointExists := fun _ => true
  taskResultExists := true
  taskId := "task-1"
  freshMsgId := "mid-1"
  now := 5
  send := fun _ _ => .ok (.vStr "sent")
  recv := fun _ _ => .ok []

/-- C5 witness: the dispatched message and the scheduled receive task at a
concrete run. -/
theorem claim_C5_dispatch_message_witness :
    (ExecOutcome.mk
        { message_id := "mid-1", user_id := some 2, source_id := none,
          destination_id := "ep1", timestamp := 5,
          payload := .cmdRequest ⟨Val.vStr "whoami", Val.vDict []⟩, digest := none }
        (Val.vStr "sent") [⟨"ep1", some 2, some "mid-1"⟩]).sent.message_id =
        envT.freshMsgId ∧
      (ExecOutcome.mk
        { message_id := "mid-1", user_id := some 2, source_id := none,
          destination_id := "ep1", timestamp := 5,
          payload := .cmdRequest ⟨Val.vStr "whoami", Val.vDict []⟩, digest := none }
        (Val.vStr "sent") [⟨"ep1", some 2, some "mid-1"⟩]).sent.source_id = none ∧
      (ExecOutcome.mk
        { message_id := "mid-1", user_id := some 2, source_id := none,
          destination_id := "ep1", timestamp := 5,
          payload := .cmdRequest ⟨Val.vStr "whoami", Val.vDict []⟩, digest := none }
        (Val.vStr "sent") [⟨"ep1", some 2, some "mid-1"⟩]).sent.destination_id = "ep1" ∧
      (ExecOutcome.mk
        { message_id := "mid-1", user_id := some 2, source_id := none,
          destination_id := "ep1", timestamp := 5,
          payload := .cmdRequest ⟨Val.vStr "whoami", Val.vDict []⟩, digest := none }
        (Val.vStr "sent") [⟨"ep1", some 2, some "mid-1"⟩]).sent.digest = none ∧
      (∃ cn ca,
        lookupD [("cmd_name", Val.vStr "whoami"), ("cmd_args", Val.vDict [])] "cmd_name" =
            some cn ∧
          lookupD [("cmd_name", Val.vStr "whoami"), ("cmd_args", Val.vDict [])] "cmd_args" =
            some ca ∧
          (ExecOutcome.mk
            { message_id := "mid-1", user_id := some 2, source_id := none,
              destination_id := "ep1", timestamp := 5,
              payload := .cmdRequest ⟨Val.vStr "whoami", Val.vDict []⟩, digest := none }
            (Val.vStr "sent") [⟨"ep1", some 2, some "mid-1"⟩]).sent.payload =
            .cmdRequest ⟨cn, ca⟩) ∧
      (ExecOutcome.mk
        { message_id := "mid-1", user_id := some 2, source_id := none,
          destination_id := "ep1", timestamp := 5,
          payload := .cmdRequest ⟨Val.vStr "whoami", Val.vDict []⟩, digest := none }
        (Val.vStr "sent") [⟨"ep1", some 2, some "mid-1"⟩]).scheduled =
        [⟨"ep1", some 2, some (ExecOutcome.mk
          { message_id := "mid-1", user_id := some 2, source_id := none,
            destination_id := "ep1", timestamp := 5,
            payload := .cmdRequest ⟨Val.vStr "whoami", Val.vDict []⟩, digest := none }
          (Val.vStr "sent") [⟨"ep1", some 2, some "mid-1"⟩]).sent.message_id⟩] :=
  claim_C5_dispatch_message envT [("cmd_name", Val.vStr "whoami"), ("cmd_args", Val.vDict [])]
    "ep1" (some 2) _ (by decide)


/-! Facts about artifact ingestion. -/

theorem nodupB_append_singleton (l : List String) (u : String)
    (hn : nodupB l = true) (hu : u ∉ l) : nodupB (l ++ [u]) = true := by
  induction l with
  | nil => simp [nodupB]
  | cons a r ih =>
    obtain ⟨h1, h2⟩ := (nodupB_cons_iff _ _).mp hn
    simp only [List.mem_cons] at hu
    push_neg at hu
    refine (nodupB_cons_iff _ _).mpr ⟨?_, ih h2 hu.2⟩
    intro hm
    rcases List.mem_append.mp hm with hm2 | hm2
    · exact h1 hm2
    · simp only [List.mem_singleton] at hm2
      exact hu.1 hm2.symm

theorem ingestFile_ok_facts (env : TaskEnv) (eid : String) (f : FileArtifact)
    (st st1 : Store) (h : ingestFile env eid f st = .ok st1) :
    f.file_id ∈ fileIds st1 ∧ (∃ suf, st1.files = st.files ++ suf) ∧
      st1.creds = st.creds ∧
      (nodupB (fileIds st) = true → nodupB (fileIds st1) = true) := by
  unfold ingestFile at h
  by_cases ht : env.taskResultExists = true
  · rw [if_pos ht] at h
    by_cases he : env.endpointExists eid = true
    · rw [if_pos he] at h
      by_cases hd : f.file_id ∈ fileIds st
      · rw [if_pos hd] at h
        cases h
        exact ⟨hd, ⟨[], by simp⟩, rfl, fun hn => hn⟩
      · rw [if_neg hd] at h
        cases h
        refine ⟨?_, ⟨_, rfl⟩, rfl, fun hn => ?_⟩
        · simp [fileIds]
        · have : fileIds { st with files :=
              st.files ++ [⟨f.file_id, env.taskId, eid, f.remote_path⟩] } =
              fileIds st ++ [f.file_id] := by simp [fileIds]
          rw [this]
          exact nodupB_append_singleton _ _ hn hd
    · rw [if_neg he] at h
      cases h
  · rw [if_neg ht] at h
    cases h

theorem ingestCred_ok_facts (env : TaskEnv) (eid : String) (c : CredentialArtifact)
    (st st1 : Store) (h : ingestCred env eid c st = .ok st1) :
    c.credential_id ∈ credIds st1 ∧ (∃ suf, st1.creds = st.creds ++ suf) ∧
      st1.files = st.files ∧
      (nodupB (credIds st) = true → nodupB (credIds st1) = true) := by
  unfold ingestCred at h
  by_cases ht : env.taskResultExists = true
  · rw [if_pos ht] at h
    by_cases he : env.endpointExists eid = true
    · rw [if_pos he] at h
      by_cases hd : c.credential_id ∈ credIds st
      · rw [if_pos hd] at h
        cases h
        exact ⟨hd, ⟨[], by simp⟩, rfl, fun hn => hn⟩
      · rw [if_neg hd] at h
        cases h
        refine ⟨?_, ⟨_, rfl⟩, rfl, fun hn => ?_⟩
        · simp [credIds]
        · have : credIds { st with creds :=
              st.creds ++ [⟨c.credential_id, env.taskId, eid, c.credential_type,
                c.value, c.expiry⟩] } = credIds st ++ [c.credential_id] := by simp [credIds]
          rw [this]
          exact nodupB_append_singleton _ _ hn hd
    · rw [if_neg he] at h
      cases h
  · rw [if_neg ht] at h
    cases h

theorem ingestFiles_facts (env : TaskEnv) (eid : String) (fs : List FileArtifact) :
    ∀ (st st2 : Store), ingestFiles env eid fs st = .ok st2 →
      (∃ suf, st2.files = st.files ++ suf) ∧ st2.creds = st.creds ∧
        (nodupB (fileIds st) = true → nodupB (fileIds st2) = true) := by
  induction fs with
  | nil =>
    intro st st2 h
    cases h
    exact ⟨⟨[], by simp⟩, rfl, fun hn => hn⟩
  | cons f rest ih =>
    intro st st2 h
    unfold ingestFiles at h
    cases h1 : ingestFile env eid f st with
    | error e => rw [h1] at h; cases h
    | ok st1 =>
      rw [h1] at h
      obtain ⟨_, ⟨suf1, hsuf1⟩, hc1, hn1⟩ := ingestFile_ok_facts env eid f st st1 h1
      obtain ⟨⟨suf2, hsuf2⟩, hc2, hn2⟩ := ih st1 st2 h
      exact ⟨⟨suf1 ++ suf2, by rw [hsuf2, hsuf1, List.append_assoc]⟩,
        hc2.trans hc1, fun hn => hn2 (hn1 hn)⟩

theorem ingestCreds_facts (env : TaskEnv) (eid : String) (cs : List CredentialArtifact) :
    ∀ (st st2 : Store), ingestCreds env eid cs st = .ok st2 →
      (∃ suf, st2.creds = st.creds ++ suf) ∧ st2.files = st.files ∧
        (nodupB (credIds st) = true → nodupB (credIds st2) = true) := by
  induction cs with
  | nil =>
    intro st st2 h
    cases h
    exact ⟨⟨[], by simp⟩, rfl, fun hn => hn⟩
  | cons c rest ih =>
    intro st st2 h
    unfold ingestCreds at h
    cases h1 : ingestCred env eid c st with
    | error e => rw [h1] at h; cases h
    | ok st1 =>
      rw [h1] at h
      obtain ⟨_, ⟨suf1, hsuf1⟩, hc1, hn1⟩ := ingestCred_ok_facts env eid c st st1 h1
      obtain ⟨⟨suf2, hsuf2⟩, hc2, hn2⟩ := ih st1 st2 h
      exact ⟨⟨suf1 ++ suf2, by rw [hsuf2, hsuf1, List.append_assoc]⟩,
        hc2.trans hc1, fun hn => hn2 (hn1 hn)⟩

theorem processMsgs_nodup (env : TaskEnv) (eid : String) (msgs : List DeadDropMessage) :
    ∀ (st st2 : Store), processMsgs env eid msgs st = .ok st2 →
      (nodupB (fileIds st) = true → nodupB (fileIds st2) = true) ∧
        (nodupB (credIds st) = true → nodupB (credIds st2) = true) := by
  induction msgs with
  | nil =>
    intro st st2 h
    cases h
    exact ⟨fun hn => hn, fun hn => hn⟩
  | cons m rest ih =>
    intro st st2 h
    unfold processMsgs at h
    cases h1 : processMsg env eid m st with
    | error e => rw [h1] at h; cases h
    | ok st1 =>
      rw [h1] at h
      have hstep : (nodupB (fileIds st) = true → nodupB (fileIds st1) = true) ∧
          (nodupB (credIds st) = true → nodupB (credIds st1) = true) := by
        unfold processMsg at h1
        cases hm : m.payload with
        | cmdResponse files creds =>
          simp only [hm] at h1
          cases h2 : ingestFiles env eid files st with
          | error e => rw [h2] at h1; cases h1
          | ok stf =>
            rw [h2] at h1
            simp only at h1
            obtain ⟨_, hcf, hnf⟩ := ingestFiles_facts env eid files st stf h2
            obtain ⟨_, hff, hnc⟩ := ingestCreds_facts env eid creds stf st1 h1
            constructor
            · intro hn
              have : fileIds st1 = fileIds stf := by rw [fileIds, hff, ← fileIds]
              rw [this]
              exact hnf hn
            · intro hn
              have : credIds stf = credIds st := by rw [credIds, hcf, ← credIds]
              exact hnc (by rw [this]; exact hn)
        | cmdRequest p =>
          simp only [hm] at h1
          cases h1
          exact ⟨fun hn => hn, fun hn => hn⟩
        | other =>
          simp only [hm] at h1
          cases h1
          exact ⟨fun hn => hn, fun hn => hn⟩
      obtain ⟨hr1, hr2⟩ := ih st1 st2 h
      exact ⟨fun hn => hr1 (hstep.1 hn), fun hn => hr2 (hstep.2 hn)⟩


/-- C1: during a receive cycle a durable insert is attempted for every file
and credential artifact of every received CommandResponsePayload; the insert
fails with IntegrityError exactly when the unique identifier already exists,
in which case a warning is recorded and processing continues with the next
artifact, so identifiers stay unique in the durable stores and two file
artifacts sharing one fresh identifier yield exactly one durable record and
one warning; sibling artifacts are never blocked by a duplicate, while any
other failure (an unresolved TaskResult or endpoint row) aborts the unit. -/
theorem claim_C1_duplicate_suppression :
    (∀ (env : TaskEnv) (eid : String) (uid : Option Nat) (rid : Option String)
        (st st2 : Store) (msgs : List DeadDropMessage),
      receive_messages env eid uid rid st = .ok (st2, msgs) →
      (nodupB (fileIds st) = true → nodupB (fileIds st2) = true) ∧
        (nodupB (credIds st) = true → nodupB (credIds st2) = true)) ∧
    (∀ (env : TaskEnv) (eid : String) (fs : List FileArtifact) (st : Store),
      env.taskResultExists = true → env.endpointExists eid = true →
      ∃ st2, ingestFiles env eid fs st = .ok st2 ∧ ∀ f ∈ fs, f.file_id ∈ fileIds st2) ∧
    (∀ (env : TaskEnv) (eid : String) (cs : List CredentialArtifact) (st : Store),
      env.taskResultExists = true → env.endpointExists eid = true →
      ∃ st2, ingestCreds env eid cs st = .ok st2 ∧
        ∀ c ∈ cs, c.credential_id ∈ credIds st2) ∧
    (∀ (env : TaskEnv) (eid : String) (f1 f2 : FileArtifact) (u : String) (st : Store),
      env.taskResultExists = true → env.endpointExists eid = true →
      f1.file_id = u → f2.file_id = u → u ∉ fileIds st →
      ∃ st2, ingestFiles env eid [f1, f2] st = .ok st2 ∧
        fileIds st2 = fileIds st ++ [u] ∧
        st2.warnings = st.warnings ++ ["duplicate file " ++ u]) ∧
    (∀ (env : TaskEnv) (eid : String) (fs : List FileArtifact) (st : Store),
      env.taskResultExists = false → fs ≠ [] →
      ∃ e, ingestFiles env eid fs st = .error e) := by
  refine ⟨?_, ?_, ?_, ?_, ?_⟩
  · intro env eid uid rid st st2 msgs h
    unfold receive_messages at h
    cases h0 : add_user_id_to_task env uid with
    | error e => rw [h0] at h; cases h
    | ok u =>
      simp only [h0] at h
      by_cases he : env.endpointExists eid = true
      · rw [if_pos he] at h
        cases h1 : env.recv eid rid with
        | error e => rw [h1] at h; cases h
        | ok msgs2 =>
          simp only [h1] at h
          cases h2 : processMsgs env eid msgs2 st with
          | error e => rw [h2] at h; cases h
          | ok stp =>
            simp only [h2, Except.ok.injEq, Prod.mk.injEq] at h
            obtain ⟨hst, _⟩ := h
            rw [← hst]
            exact processMsgs_nodup env eid msgs2 st stp h2
      · rw [if_neg he] at h
        cases h
  · intro env eid fs st ht he
    induction fs generalizing st with
    | nil => exact ⟨st, rfl, by simp⟩
    | cons f rest ih =>
      have hstep : ∃ st1, ingestFile env eid f st = .ok st1 := by
        unfold ingestFile
        rw [if_pos ht, if_pos he]
        by_cases hd : f.file_id ∈ fileIds st
        · exact ⟨_, by rw [if_pos hd]⟩
        · exact ⟨_, by rw [if_neg hd]⟩
      obtain ⟨st1, hst1⟩ := hstep
      obtain ⟨hmem1, ⟨suf1, _⟩, _, _⟩ := ingestFile_ok_facts env eid f st st1 hst1
      obtain ⟨st2, hok, hmem⟩ := ih st1
      refine ⟨st2, ?_, ?_⟩
      · unfold ingestFiles
        rw [hst1]
        exact hok
      · intro g hg
        rcases List.mem_cons.mp hg with hc | hc
        · obtain ⟨sufr, hsufr⟩ := (ingestFiles_facts env eid rest st1 st2 hok).1
          rw [hc]
          have : fileIds st2 = fileIds st1 ++ sufr.map FileRec.file_id := by
            rw [fileIds, hsufr, List.map_append, ← fileIds]
          rw [this]
          exact List.mem_append_left _ hmem1
        · exact hmem g hc
  · intro env eid cs st ht he
    induction cs generalizing st with
    | nil => exact ⟨st, rfl, by simp⟩
    | cons c rest ih =>
      have hstep : ∃ st1, ingestCred env eid c st = .ok st1 := by
        unfold ingestCred
        rw [if_pos ht, if_pos he]
        by_cases hd : c.credential_id ∈ credIds st
        · exact ⟨_, by rw [if_pos hd]⟩
        · exact ⟨_, by rw [if_neg hd]⟩
      obtain ⟨st1, hst1⟩ := hstep
      obtain ⟨hmem1, ⟨suf1, _⟩, _, _⟩ := ingestCred_ok_facts env eid c st st1 hst1
      obtain ⟨st2, hok, hmem⟩ := ih st1
      refine ⟨st2, ?_, ?_⟩
      · unfold ingestCreds
        rw [hst1]
        exact hok
      · intro g hg
        rcases List.mem_cons.mp hg with hc | hc
        · obtain ⟨sufr, hsufr⟩ := (ingestCreds_facts env eid rest st1 st2 hok).1
          rw [hc]
          have : credIds st2 = credIds st1 ++ sufr.map CredRec.credential_id := by
            rw [credIds, hsufr, List.map_append, ← credIds]
          rw [this]
          exact List.mem_append_left _ hmem1
        · exact hmem g hc
  · intro env eid f1 f2 u st ht he h1 h2 hu
    have hin1 : ingestFile env eid f1 st =
        .ok { st with files := st.files ++ [⟨u, env.taskId, eid, f1.remote_path⟩] } := by
      unfold ingestFile
      rw [if_pos ht, if_pos he, h1, if_neg hu]
    have hmem2 : u ∈ fileIds { st with files :=
        st.files ++ [⟨u, env.taskId, eid, f1.remote_path⟩] } := by
      simp [fileIds]
    have hin2 : ingestFile env eid f2
        { st with files := st.files ++ [⟨u, env.taskId, eid, f1.remote_path⟩] } =
        .ok { st with
                files := st.files ++ [⟨u, env.taskId, eid, f1.remote_path⟩],
                warnings := st.warnings ++ ["duplicate file " ++ u] } := by
      unfold ingestFile
      rw [if_pos ht, if_pos he, h2, if_pos hmem2]
    refine ⟨{ st with
        files := st.files ++ [⟨u, env.taskId, eid, f1.remote_path⟩],
        warnings := st.warnings ++ ["duplicate file " ++ u] }, ?_, ?_, ?_⟩
    · unfold ingestFiles
      rw [hin1]
      unfold ingestFiles
      rw [hin2]
      rfl
    · simp [fileIds]
    · rfl
  · intro env eid fs st ht hne
    cases fs with
    | nil => exact absurd rfl hne
    | cons f rest =>
      refine ⟨.doesNotExist "TaskResult", ?_⟩
      unfold ingestFiles ingestFile
      rw [if_neg (by rw [ht]; exact Bool.false_ne_true)]


/-- A task environment whose transport returns one response carrying two file
artifacts that share one unique identifier. -/
def envR : TaskEnv :=
  { envT with
      recv := fun _ _ =>
        .ok [⟨"m1", none, some "ep1", "server", 9,
          .cmdResponse [⟨"u1", none, "data"⟩, ⟨"u1", none, "data2"⟩] [], none⟩] }

/-- C1 witness: a receive cycle over two file artifacts sharing an identifier
keeps the store duplicate-free, the duplicate pair yields exactly one record
and one warning, and a missing TaskResult row is fatal. -/
theorem claim_C1_duplicate_suppression_witness :
    ((nodupB (fileIds ⟨[], [], []⟩) = true →
        nodupB (fileIds ⟨[⟨"u1", "task-1", "ep1", none⟩], [],
          ["duplicate file u1"]⟩) = true) ∧
      (nodupB (credIds ⟨[], [], []⟩) = true →
        nodupB (credIds ⟨[⟨"u1", "task-1", "ep1", none⟩], [],
          ["duplicate file u1"]⟩) = true)) ∧
    (∃ st2, ingestFiles envT "ep1"
        [⟨"u1", none, "data"⟩, ⟨"u1", none, "data2"⟩] ⟨[], [], []⟩ = .ok st2 ∧
      fileIds st2 = fileIds (⟨[], [], []⟩ : Store) ++ ["u1"] ∧
      st2.warnings = Store.warnings ⟨[], [], []⟩ ++ ["duplicate file " ++ "u1"]) ∧
    (∃ e, ingestFiles { envT with taskResultExists := false } "ep1"
        [⟨"u1", none, "data"⟩] ⟨[], [], []⟩ = .error e) :=
  ⟨claim_C1_duplicate_suppression.1 envR "ep1" none none ⟨[], [], []⟩
      ⟨[⟨"u1", "task-1", "ep1", none⟩], [], ["duplicate file u1"]⟩
      [⟨"m1", none, some "ep1", "server", 9,
        .cmdResponse [⟨"u1", none, "data"⟩, ⟨"u1", none, "data2"⟩] [], none⟩]
      (by decide),
    claim_C1_duplicate_suppression.2.2.2.1 envT "ep1"
      ⟨"u1", none, "data"⟩ ⟨"u1", none, "data2"⟩ "u1" ⟨[], [], []⟩
      (by decide) (by decide) (by decide) (by decide) (by decide),
    claim_C1_duplicate_suppression.2.2.2.2 { envT with taskResultExists := false } "ep1"
      [⟨"u1", none, "data"⟩] ⟨[], [], []⟩ (by decide) (by decide)⟩

end DeadDropBackend
